import Mathlib

/-!
# Verification of the EPUB-to-Markdown converter's structural specification

A shallow embedding of the structural core of `convert_epub_to_md.py`:
the spine-driven structure builder, the label assigner of `convert_book`,
the link-restoration step and the Notes-section footnote pass of
`post_process_markdown`, and the package-setup steps (`find_opf_path`,
content-root resolution).

File- and process-level effects (reading XHTML from disk, invoking pandoc,
moving files) are modelled by passing their observable results as inputs:
a unit's parsed classification record, a `titleOf` map giving the title
extracted from each file, and boolean oracles for file existence.
-/

namespace EpubToMd

/-! ## Python string primitives

The converter manipulates Python `str` values.  Strings are embedded as
Lean `String` and the Python operations used by the code are translated
on the underlying character lists (Python compares and slices by code
point; all data handled by the converter is ASCII). -/

/-- Python string comparison `s1 < s2`: lexicographic on code points. -/
def pylt : List Char → List Char → Bool
  | _, [] => false
  | [], _ :: _ => true
  | a :: as, b :: bs =>
    if a.toNat < b.toNat then true
    else if b.toNat < a.toNat then false
    else pylt as bs

/-- `str_lt a b`: Python `a < b` on strings. -/
def str_lt (a b : String) : Bool := pylt a.data b.data

/-- The strict lexicographic order on labels, as a relation. -/
def strLtR (a b : String) : Prop := str_lt a b = true

instance : DecidableRel strLtR := fun a b => inferInstanceAs (Decidable (str_lt a b = true))

/-- Contiguous-substring test on character lists. -/
def substr_in_chars (needle : List Char) : List Char → Bool
  | [] => needle.isEmpty
  | h :: t => needle.isPrefixOf (h :: t) || substr_in_chars needle t

/-- Python `needle in hay` (substring containment). -/
def substr_in (needle hay : String) : Bool := substr_in_chars needle.data hay.data

/-- Python `s.lower()` (ASCII case folding suffices for the data handled). -/
def py_lower (s : String) : String := ⟨s.data.map Char.toLower⟩

/-- Python `s.strip()`: remove leading and trailing whitespace. -/
def py_strip (s : String) : String :=
  ⟨((s.data.dropWhile Char.isWhitespace).reverse.dropWhile Char.isWhitespace).reverse⟩

/-- Python `s.startswith(pre)`. -/
def py_startswith (pre s : String) : Bool := pre.data.isPrefixOf s.data

/-- First occurrence split: helper for Python `s.split(c, 1)`. -/
def split_first_char (c : Char) : List Char → Option (List Char × List Char)
  | [] => none
  | a :: as =>
    if a = c then some ([], as)
    else (split_first_char c as).map (fun p => (a :: p.1, p.2))

/-- Python `s.split(c, 1)` unpacked into the two parts (the converter only
calls it after checking that the separator occurs). -/
def py_split1 (s : String) (c : Char) : String × String :=
  match split_first_char c s.data with
  | some (l, r) => (⟨l⟩, ⟨r⟩)
  | none => (s, "")

/-! ## `safe_filename` and the table-of-contents label override -/

/-- The character class of `re.sub(r'[\\/:"*?<>|]', '-', title)`. -/
def illegal_filename_chars : List Char := ['\\', '/', ':', '"', '*', '?', '<', '>', '|']

/-- `safe_filename` from the source: sanitize a title for use as a filename,
replacing illegal characters with `-` and truncating over-long names. -/
def safe_filename (title : String) : String :=
  let safe_title : String :=
    ⟨title.data.map (fun ch => if illegal_filename_chars.contains ch then '-' else ch)⟩
  if safe_title.data.length > 100 then ⟨safe_title.data.take 97⟩ ++ "..." else safe_title

/-- The TOC-file test applied to every unit in `convert_book`'s labeling loops:
`"table of contents" in safe_title.lower() or safe_title.strip().lower() in {"toc", "contents"}`. -/
def is_toc_special (safe_title : String) : Bool :=
  substr_in "table of contents" (py_lower safe_title)
    || (py_lower (py_strip safe_title) == "toc" || py_lower (py_strip safe_title) == "contents")

/-! ## Structural labels -/

/-- `string.ascii_lowercase`. -/
def ascii_lowercase : String := "abcdefghijklmnopqrstuvwxyz"

/-- Python `f"{num:02d}"` (all numbers produced by the converter are naturals). -/
def pad2 (n : Nat) : String := if n < 10 then "0" ++ Nat.repr n else Nat.repr n

/-- The chapter-unit label `f"{num:02d}.{idx}"`. -/
def chapter_label (num idx : Nat) : String := pad2 num ++ "." ++ Nat.repr idx

/-- The back-matter label `f"{90 + i}"`. -/
def backmatter_label (i : Nat) : String := Nat.repr (90 + i)

/-- The front-matter label `f"00{ascii_lowercase[i]}"`; `none` models the
`IndexError` raised by `ascii_lowercase[i]` for `i ≥ 26`. -/
def frontmatter_label (i : Nat) : Option String :=
  (ascii_lowercase.data.get? i).map (fun ch => "00" ++ String.mk [ch])

/-! ## Data model

`extract_xhtml_metadata` parses one XHTML file into a metadata record.
The structure builder reads only the fields embedded here (`title`,
`is_frontmatter`, `is_chapter`, `is_backmatter`); `chapter_number` is
carried because the specification refers to it.  The remaining fields of
the Python dict (`section_id`, `level`, `subsection_number`, `all_ids`,
`body_type`, `section_type`) are never read by the functions under
verification and are omitted. -/

structure UnitMeta where
  title : String
  is_frontmatter : Bool
  is_chapter : Bool
  is_backmatter : Bool
  chapter_number : Option Nat
deriving DecidableEq

/-- One spine entry: its (manifest-resolved) filename, whether the file
exists on disk (`xhtml_path.exists()`), and its extracted metadata. -/
structure SpineUnit where
  file : String
  on_disk : Bool
  meta : UnitMeta
deriving DecidableEq

/-- The result triple of `build_spine_driven_structure`. -/
structure SpineStructure where
  chapter_groups : List (Nat × String × List String)
  frontmatter_files : List String
  backmatter_files : List String
deriving DecidableEq

/-! ## `build_spine_driven_structure` -/

/-- The loop state of `build_spine_driven_structure`'s walk over the spine. -/
structure BuildState where
  chapter_groups : List (Nat × String × List String)
  frontmatter_files : List String
  backmatter_files : List String
  chapter_index : Nat
  current_chapter_files : List String
  current_chapter_title : Option String
deriving DecidableEq

/-- Python `current_chapter_title or "Untitled"` (`None` and `""` are falsy). -/
def close_title : Option String → String
  | none => "Untitled"
  | some t => if t = "" then "Untitled" else t

/-- Close the open chapter accumulator into a finished group
(`chapter_groups.append((chapter_index, current_chapter_title or "Untitled",
current_chapter_files)); chapter_index += 1`). -/
def close_current (st : BuildState) : BuildState :=
  { st with
    chapter_groups := st.chapter_groups ++
      [(st.chapter_index, close_title st.current_chapter_title, st.current_chapter_files)],
    chapter_index := st.chapter_index + 1,
    current_chapter_files := [] }

/-- `title = metadata.get("title") or file`: the unit title used by the walk
(`None` cannot occur; the empty string is falsy and falls back to the
filename). -/
def unit_title (u : SpineUnit) : String :=
  if u.meta.title = "" then u.file else u.meta.title

/-- One iteration of the `for file in spine_files` loop. -/
def build_step (st : BuildState) (u : SpineUnit) : BuildState :=
  if u.on_disk = false then st
  else if u.meta.is_frontmatter then
    { st with frontmatter_files := st.frontmatter_files ++ [u.file] }
  else if u.meta.is_backmatter then
    let st' := if st.current_chapter_files = [] then st else close_current st
    { st' with backmatter_files := st'.backmatter_files ++ [u.file] }
  else if u.meta.is_chapter then
    let st' := if st.current_chapter_files = [] then st else close_current st
    { st' with current_chapter_files := [u.file], current_chapter_title := some (unit_title u) }
  else
    { st with current_chapter_files := st.current_chapter_files ++ [u.file] }

def initial_build_state : BuildState :=
  { chapter_groups := [], frontmatter_files := [], backmatter_files := [],
    chapter_index := 1, current_chapter_files := [], current_chapter_title := none }

/-- `# Add the final chapter if one is open`. -/
def build_finalize (st : BuildState) : SpineStructure :=
  let st' := if st.current_chapter_files = [] then st else close_current st
  { chapter_groups := st'.chapter_groups,
    frontmatter_files := st'.frontmatter_files,
    backmatter_files := st'.backmatter_files }

/-- `build_spine_driven_structure`: walk the spine once, bucketing units into
front matter, chapter groups and back matter. -/
def build_spine_driven_structure (spine : List SpineUnit) : SpineStructure :=
  build_finalize (spine.foldl build_step initial_build_state)

/-! ## Label assignment (`convert_book`, Phase 2)

Each loop of Phase 2 computes a label, re-extracts the unit's title
(modelled by `titleOf`), applies the TOC override, and appends a log
entry when the unit's intermediate markdown file exists (modelled by
`md_ok`). -/

structure LogEntry where
  file : String
  label : String
  output_file : String
deriving DecidableEq

/-- Shared per-unit tail of each labeling loop: TOC override and output
filename `f"{label} - {safe_title}.md"`.  Returns the final label and the
output filename. -/
def entry_for (fname label0 : String) (titleOf : String → String) : String × String :=
  let safe_title := safe_filename (titleOf fname)
  let label := if is_toc_special safe_title then "100" else label0
  (label, label ++ " - " ++ safe_title ++ ".md")

/-- The front-matter loop `for i, fname in enumerate(front_matter)`;
`none` models the uncaught `IndexError` from `ascii_lowercase[i]`. -/
def assign_front_labels (titleOf : String → String) (md_ok : String → Bool) :
    Nat → List String → Option (List LogEntry)
  | _, [] => some []
  | i, fname :: rest =>
    match frontmatter_label i with
    | none => none
    | some label0 =>
      let (label, out) := entry_for fname label0 titleOf
      match assign_front_labels titleOf md_ok (i + 1) rest with
      | none => none
      | some entries =>
        some (if md_ok fname then ⟨fname, label, out⟩ :: entries else entries)

/-- The inner chapter loop `for idx, fname in enumerate(group)`. -/
def assign_group_labels (titleOf : String → String) (md_ok : String → Bool) (num : Nat) :
    Nat → List String → List LogEntry
  | _, [] => []
  | idx, fname :: rest =>
    let (label, out) := entry_for fname (chapter_label num idx) titleOf
    let entries := assign_group_labels titleOf md_ok num (idx + 1) rest
    if md_ok fname then ⟨fname, label, out⟩ :: entries else entries

/-- The outer chapter loop `for num, title, group in chapter_groups`. -/
def assign_chapter_labels (titleOf : String → String) (md_ok : String → Bool) :
    List (Nat × String × List String) → List LogEntry
  | [] => []
  | (num, _, group) :: rest =>
    assign_group_labels titleOf md_ok num 0 group ++ assign_chapter_labels titleOf md_ok rest

/-- The back-matter loop `for i, fname in enumerate(back_matter)`. -/
def assign_back_labels (titleOf : String → String) (md_ok : String → Bool) :
    Nat → List String → List LogEntry
  | _, [] => []
  | i, fname :: rest =>
    let (label, out) := entry_for fname (backmatter_label i) titleOf
    let entries := assign_back_labels titleOf md_ok (i + 1) rest
    if md_ok fname then ⟨fname, label, out⟩ :: entries else entries

/-- Phase 2 of `convert_book`: label front matter, chapters and back matter
in output order.  `none` models the run aborting on the front-matter
`IndexError`. -/
def assign_labels (st : SpineStructure) (titleOf : String → String) (md_ok : String → Bool) :
    Option (List LogEntry) :=
  match assign_front_labels titleOf md_ok 0 st.frontmatter_files with
  | none => none
  | some fm =>
    some (fm ++ assign_chapter_labels titleOf md_ok st.chapter_groups
             ++ assign_back_labels titleOf md_ok 0 st.backmatter_files)

/-- The labels emitted for the produced output files, in output order. -/
def labels_of (entries : List LogEntry) : List String := entries.map (·.label)

/-! ## `restore_link` (`post_process_markdown`, restore phase)

The replacement callback for `LINK_PLACEHOLDER_([^_]+)_([^_]+)`: it
receives the protected link text and url.  The Python `chapter_map` is a
`dict` (or `None`); it is embedded as an association list with unique
keys, where both `None` and the empty dict are falsy, i.e. `[]`. -/

def restore_link (chapter_map : List (String × String)) (link_text link_url : String) :
    String :=
  if !chapter_map.isEmpty && substr_in ".xhtml#" link_url then
    match chapter_map.lookup
        (if substr_in "#" link_url then py_split1 link_url '#' else (link_url, "")).1 with
    | some md_target => "[[" ++ md_target ++ "]]"
    | none => "[" ++ link_text ++ "](" ++ link_url ++ ")"
  else "[" ++ link_text ++ "](" ++ link_url ++ ")"

/-! ## The Notes-section passes of `post_process_markdown`

`post_process_markdown` splits the text on newlines and walks the lines
twice: first converting numbered lines inside a `## Notes` section into
footnote definitions, then converting stray footnote definitions outside
a Notes section back into references.  Both passes are embedded on the
line lists produced by `markdown_text.split('\n')`. -/

/-- `re.match(r'^\d+\s+', s)` as a Bool: at least one leading digit whose
digit-run is followed by a whitespace character. -/
def notes_numbered (s : String) : Bool :=
  match s.data with
  | [] => false
  | c :: cs =>
    c.isDigit &&
      (match (c :: cs).dropWhile Char.isDigit with
       | [] => false
       | d :: _ => d.isWhitespace)

/-- `re.sub(r'^(\d+)\s+', r'[^\1]: ', line)`: rewrite a leading
`<digits><whitespace>` prefix into `[^<digits>]: `. -/
def notes_sub_line (line : String) : String :=
  let ds := line.data.takeWhile Char.isDigit
  let rest := line.data.dropWhile Char.isDigit
  let ws := rest.takeWhile Char.isWhitespace
  if ds.isEmpty || ws.isEmpty then line
  else ⟨'[' :: '^' :: ds ++ ']' :: ':' :: ' ' :: rest.dropWhile Char.isWhitespace⟩

/-- The first line walk (numbered notes → footnote definitions), carrying
the `in_notes_section` flag. -/
def notes_section_pass (in_notes : Bool) : List String → List String
  | [] => []
  | line :: rest =>
    if py_strip line = "## Notes" then line :: notes_section_pass true rest
    else if in_notes && py_startswith "##" (py_strip line) then
      line :: notes_section_pass false rest
    else if in_notes && notes_numbered (py_strip line) then
      notes_sub_line line :: notes_section_pass in_notes rest
    else line :: notes_section_pass in_notes rest

/-- `re.match(r'^\[\d+\]:', s)` as a Bool. -/
def footref_match (s : String) : Bool :=
  match s.data with
  | '[' :: rest =>
    (rest.takeWhile Char.isDigit).isEmpty = false &&
      (match rest.dropWhile Char.isDigit with
       | ']' :: ':' :: _ => true
       | _ => false)
  | _ => false

/-- `re.sub(r'^\[(\d+)\]:\s*', r'[^\1] ', line)`. -/
def footref_sub_line (line : String) : String :=
  match line.data with
  | '[' :: rest =>
    let ds := rest.takeWhile Char.isDigit
    (match rest.dropWhile Char.isDigit with
     | ']' :: ':' :: tail =>
       if ds.isEmpty then line
       else ⟨'[' :: '^' :: ds ++ ']' :: ' ' :: tail.dropWhile Char.isWhitespace⟩
     | _ => line)
  | _ => line

/-- The second line walk (stray definitions outside a Notes section →
footnote references). -/
def footref_fix_pass (in_notes : Bool) : List String → List String
  | [] => []
  | line :: rest =>
    if py_strip line = "## Notes" then line :: footref_fix_pass true rest
    else if in_notes && py_startswith "##" (py_strip line) then
      line :: footref_fix_pass false rest
    else if in_notes = false && footref_match (py_strip line) then
      footref_sub_line line :: footref_fix_pass in_notes rest
    else line :: footref_fix_pass in_notes rest

/-! ## Package setup (`find_opf_path` and content-root resolution) -/

/-- Observable result of opening and parsing `META-INF/container.xml`:
either the file is absent (the `open` call raises `FileNotFoundError`), or
the parse yields the `rootfile` element's `full-path` attribute when
present. -/
inductive ContainerLookup where
  | missing_container : ContainerLookup
  | rootfile_path : Option String → ContainerLookup
deriving DecidableEq

/-- `find_opf_path`: resolve the OPF path from the container descriptor.
`Except.error` models the uncaught exception aborting the run. -/
def find_opf_path (container_path : String) (c : ContainerLookup) : Except String String :=
  match c with
  | .missing_container => .error "FileNotFoundError: META-INF/container.xml"
  | .rootfile_path none => .error "Could not locate rootfile path in container.xml"
  | .rootfile_path (some full_path) => .ok (container_path ++ "/" ++ full_path)

/-- The content-root search of `convert_book`: try `content_root`,
`content_root/html`, `content_root/EPUB` in order, keeping the first that
exists and contains `*.xhtml` files; otherwise fall back to `content_root`
with a warning.  `dir_on_disk r` models `root.exists()` and `has_xhtml r`
models `any(root.glob("*.xhtml"))`.  The Bool result records whether the
fallback warning was printed. -/
def resolve_content_root (content_root : String) (dir_on_disk has_xhtml : String → Bool) :
    String × Bool :=
  if dir_on_disk content_root && has_xhtml content_root then (content_root, false)
  else if dir_on_disk (content_root ++ "/html") && has_xhtml (content_root ++ "/html") then
    (content_root ++ "/html", false)
  else if dir_on_disk (content_root ++ "/EPUB") && has_xhtml (content_root ++ "/EPUB") then
    (content_root ++ "/EPUB", false)
  else (content_root, true)

/-- The package-setup prefix of `convert_book`: locate the OPF, then
resolve the content root from the OPF's parent directory (`parent` models
`Path.parent`).  Only the OPF lookup can abort. -/
def package_setup (container_path : String) (c : ContainerLookup)
    (dir_on_disk has_xhtml : String → Bool) (parent : String → String) :
    Except String (String × Bool) :=
  match find_opf_path container_path c with
  | .error e => .error e
  | .ok opf => .ok (resolve_content_root (parent opf) dir_on_disk has_xhtml)

/-! ## Invariants of the structure builder -/

/-- Loop invariant of the spine walk: chapter groups carry the consecutive
indices `1, 2, …`, the running index is one past the last used one, and
no closed group is empty. -/
def BuildInv (st : BuildState) : Prop :=
  st.chapter_groups.map (fun g => g.1) = List.range' 1 st.chapter_groups.length ∧
  st.chapter_index = st.chapter_groups.length + 1 ∧
  ∀ g ∈ st.chapter_groups, g.2.2 ≠ []

/-! ## Concrete ordering facts about the three label families

All bounds are small, so these are settled by evaluation over the bounded
range. -/

/-- The front-matter label as a total function of the index (agrees with
`frontmatter_label` for `i < 26`). -/
def fm_label_str (i : Nat) : String := "00" ++ String.mk [ascii_lowercase.data.getD i 'a']

/-- The block of labels of one chapter group. -/
def chapter_block_labels (g : Nat × String × List String) : List String :=
  (List.range g.2.2.length).map (chapter_label g.1)

/-- A spine unit classified as back matter, with its title equal to its
filename. -/
def cx_back_unit (f : String) : SpineUnit := ⟨f, true, ⟨f, false, false, true, none⟩⟩

/-- A run with eleven back-matter units: the eleventh receives label `"100"`. -/
def c1_cx_spine : List SpineUnit :=
  [cx_back_unit "b00.xhtml", cx_back_unit "b01.xhtml", cx_back_unit "b02.xhtml",
   cx_back_unit "b03.xhtml", cx_back_unit "b04.xhtml", cx_back_unit "b05.xhtml",
   cx_back_unit "b06.xhtml", cx_back_unit "b07.xhtml", cx_back_unit "b08.xhtml",
   cx_back_unit "b09.xhtml", cx_back_unit "b10.xhtml"]

/-- A small well-behaved run used to witness `C1_label_order`: one
front-matter unit, two chapter groups (the first with an unclassified
continuation unit), one back-matter unit. -/
def c1_wit_spine : List SpineUnit :=
  [⟨"wfront.xhtml", true, ⟨"Preface", true, false, false, none⟩⟩,
   ⟨"wch1.xhtml", true, ⟨"Alpha", false, true, false, some 1⟩⟩,
   ⟨"wsub.xhtml", true, ⟨"Beta", false, false, false, none⟩⟩,
   ⟨"wch2.xhtml", true, ⟨"Gamma", false, true, false, some 2⟩⟩,
   ⟨"wback.xhtml", true, ⟨"Sources", false, false, true, none⟩⟩]

/-! ## Claim C2: the grouping and labeling boundary example -/

/-- The six-unit spine of the specification's grouping example:
`front1` (front matter), `chap1` (chapter number 1), `sub1a`, `sub1b`
(unclassified), `chap2` (chapter number 2), `ref1` (back matter). -/
def c2_spine : List SpineUnit :=
  [⟨"front1.xhtml", true, ⟨"Front One", true, false, false, none⟩⟩,
   ⟨"chap1.xhtml", true, ⟨"Title1", false, true, false, some 1⟩⟩,
   ⟨"sub1a.xhtml", true, ⟨"Sub A", false, false, false, none⟩⟩,
   ⟨"sub1b.xhtml", true, ⟨"Sub B", false, false, false, none⟩⟩,
   ⟨"chap2.xhtml", true, ⟨"Title2", false, true, false, some 2⟩⟩,
   ⟨"ref1.xhtml", true, ⟨"References", false, false, true, none⟩⟩]

/-- The per-file titles re-extracted during labeling. -/
def c2_titleOf : String → String := fun f =>
  if f = "front1.xhtml" then "Front One"
  else if f = "chap1.xhtml" then "Title1"
  else if f = "sub1a.xhtml" then "Sub A"
  else if f = "sub1b.xhtml" then "Sub B"
  else if f = "chap2.xhtml" then "Title2"
  else "References"

/-! ## Claim C3: when a new chapter group is opened -/

/-- The specification's boundary rule entails: two consecutive
chapter-classified units with the same extracted chapter number end up in
one single chapter group (the second does not start a new group). -/
def C3_claim_same_number_joins : Prop :=
  ∀ u1 u2 : SpineUnit,
    u1.on_disk = true → u2.on_disk = true →
    u1.meta.is_frontmatter = false → u1.meta.is_backmatter = false →
    u1.meta.is_chapter = true →
    u2.meta.is_frontmatter = false → u2.meta.is_backmatter = false →
    u2.meta.is_chapter = true →
    u1.meta.chapter_number = u2.meta.chapter_number →
    (build_spine_driven_structure [u1, u2]).chapter_groups.length = 1

/-- The tracking predicate behind C3: unit `u` heads a closed chapter group
titled with its own title, or heads the currently open accumulator. -/
def heads_group (u : SpineUnit) (st : BuildState) : Prop :=
  (∃ g ∈ st.chapter_groups, g.2.2.head? = some u.file ∧ g.2.1 = unit_title u) ∨
  (st.current_chapter_files.head? = some u.file ∧
    st.current_chapter_title = some (unit_title u))

/-! ## Claim C4: where unclassified units are bucketed -/

/-- A classification record that matched none of the frontmatter, chapter or
backmatter rules (this includes level/subsection-classified units, whose
three flags are also all false). -/
def unclassified_meta (m : UnitMeta) : Bool :=
  !m.is_frontmatter && !m.is_chapter && !m.is_backmatter

/-- The claim as stated: every unclassified on-disk unit lands in the
front-matter list. -/
def C4_claim_unclassified_to_front : Prop :=
  ∀ (spine : List SpineUnit) (u : SpineUnit),
    u ∈ spine → u.on_disk = true → unclassified_meta u.meta = true →
    u.file ∈ (build_spine_driven_structure spine).frontmatter_files

/-- The tracking predicate behind C4: file `f` sits in a closed chapter group
or in the open accumulator. -/
def file_tracked (f : String) (st : BuildState) : Prop :=
  (∃ g ∈ st.chapter_groups, f ∈ g.2.2) ∨ f ∈ st.current_chapter_files

/-- The claim as stated by the spec's "cross-reference closure" property,
over the link-restoration step: a link whose target filename (the part of
the url before the first `#`) is a key of the map must reference the mapped
output filename, and a link whose target filename is absent from the map
must degrade to the bare link text with no link markup. -/
def C7_claim_closure : Prop :=
  ∀ (chapter_map : List (String × String)) (text url : String),
    chapter_map.isEmpty = false →
    (∀ target, chapter_map.lookup (py_split1 url '#').1 = some target →
      substr_in target (restore_link chapter_map text url) = true) ∧
    (chapter_map.lookup (py_split1 url '#').1 = none →
      restore_link chapter_map text url = text)

/-- The claim as stated: when a protected cross-unit link with a sub-anchor
has its target file in the map, the rewritten link includes the sub-anchor. -/
def C8_claim_anchor_kept : Prop :=
  ∀ (chapter_map : List (String × String)) (text file_part anchor target : String),
    chapter_map.isEmpty = false →
    substr_in ".xhtml#" (file_part ++ "#" ++ anchor) = true →
    chapter_map.lookup (py_split1 (file_part ++ "#" ++ anchor) '#').1 = some target →
    substr_in anchor (restore_link chapter_map text (file_part ++ "#" ++ anchor)) = true

/-! ## Claim C9: fatal package-structure errors -/

/-- The claim as stated: both a missing container descriptor (or missing
rootfile path) *and* an unresolvable content root abort the run. -/
def C9_claim_fatal : Prop :=
  (∀ (container_path : String) (c : ContainerLookup) (d h : String → Bool)
      (parent : String → String),
    (c = ContainerLookup.missing_container ∨ c = ContainerLookup.rootfile_path none) →
    (package_setup container_path c d h parent).isOk = false) ∧
  (∀ (container_path full_path : String) (d h : String → Bool) (parent : String → String),
    (∀ r, (d r && h r) = false) →
    (package_setup container_path (ContainerLookup.rootfile_path (some full_path))
      d h parent).isOk = false)

/-! ## Claim C10: front-matter labeling is only total up to 26 units -/

/-- The claim as stated: with at most 26 front-matter units every unit `i`
receives `00` + the `i`-th lowercase letter, and with 27 or more the
labeling aborts (`IndexError`). -/
def C10_claim_front_letters : Prop :=
  (∀ (front : List String) (titleOf : String → String),
    front.length ≤ 26 →
    (assign_front_labels titleOf (fun _ => true) 0 front).map labels_of =
      some ((List.range front.length).map fm_label_str)) ∧
  (∀ (front : List String) (titleOf : String → String) (md_ok : String → Bool),
    27 ≤ front.length →
    assign_front_labels titleOf md_ok 0 front = none)

/-! ## Claim C6: Notes-section scoping of numbered lines -/

/-- The line opens (or re-opens) the Notes section: `line.strip() == '## Notes'`. -/
def notes_open (l : String) : Bool := py_strip l == "## Notes"

/-- The line does not close an open Notes section: it is the Notes heading
itself or does not start with `##` after stripping. -/
def notes_keeps (l : String) : Bool :=
  notes_open l || !(py_startswith "##" (py_strip l))

/-- One transition of the `in_notes_section` flag maintained by the pass. -/
def notes_state_step (b : Bool) (l : String) : Bool :=
  if py_strip l = "## Notes" then true
  else if b && py_startswith "##" (py_strip l) then false
  else b

/-- Modelled from the spec: a markdown heading line (its stripped text
starts with `#`). -/
def spec_is_heading_line (l : String) : Bool := py_startswith "#" (py_strip l)

/-- Modelled from the spec: a heading line literally reading `Notes` (the
text after the `#` markers is exactly `Notes`). -/
def spec_heading_reads_notes (l : String) : Bool :=
  spec_is_heading_line l &&
    py_strip (String.mk ((py_strip l).data.dropWhile (fun c => c = '#'))) == "Notes"

/-- Modelled from the spec: line `i` lies inside a section opened by a
heading literally reading `Notes` and not yet closed by any subsequent
heading. -/
def spec_notes_scope (lines : List String) (i : Nat) : Prop :=
  ∃ j, j < i ∧ spec_heading_reads_notes (lines.getD j "") = true ∧
    ∀ k, k < i → j < k → spec_is_heading_line (lines.getD k "") = false

instance (lines : List String) (i : Nat) : Decidable (spec_notes_scope lines i) :=
  inferInstanceAs (Decidable (∃ j, j < i ∧
    spec_heading_reads_notes (lines.getD j "") = true ∧
    ∀ k, k < i → j < k → spec_is_heading_line (lines.getD k "") = false))

/-- The claim as stated: a numbered line inside a Notes section (per the
spec's wording) becomes a footnote definition, and an identical numbered
line outside any Notes section is left unchanged. -/
def C6_claim_notes : Prop :=
  ∀ (lines : List String) (i : Nat) (line : String),
    lines.get? i = some line →
    notes_numbered line = true →
    (spec_notes_scope lines i →
      (notes_section_pass false lines).get? i = some (notes_sub_line line)) ∧
    (¬ spec_notes_scope lines i →
      (notes_section_pass false lines).get? i = some line)

/-! ## The lexicographic order on labels -/

theorem pylt_trans : ∀ (a b c : List Char),
    pylt a b = true → pylt b c = true → pylt a c = true
  | _, [], _ => by intro h _; simp [pylt] at h
  | _, _ :: _, [] => by intro _ h; simp [pylt] at h
  | [], _ :: _, _ :: _ => by intro _ _; simp [pylt]
  | a :: as, b :: bs, c :: cs => by
    intro hab hbc
    simp only [pylt] at hab hbc ⊢
    rcases Nat.lt_trichotomy a.toNat b.toNat with h1 | h1 | h1
    · rcases Nat.lt_trichotomy b.toNat c.toNat with h2 | h2 | h2
      · simp [Nat.lt_trans h1 h2]
      · simp [h2 ▸ h1]
      · simp [Nat.lt_asymm h2, h2] at hbc
    · rcases Nat.lt_trichotomy b.toNat c.toNat with h2 | h2 | h2
      · simp [h1 ▸ h2]
      · have hac : a.toNat = c.toNat := h1.trans h2
        simp [Nat.lt_irrefl, h1, h2, hac] at hab hbc ⊢
        exact pylt_trans as bs cs hab hbc
      · simp [Nat.lt_asymm h2, h2] at hbc
    · simp [Nat.lt_asymm h1, h1] at hab

theorem pylt_irrefl : ∀ a : List Char, pylt a a = false
  | [] => rfl
  | c :: cs => by simp [pylt, Nat.lt_irrefl, pylt_irrefl cs]

theorem strLtR_trans {a b c : String} (hab : strLtR a b) (hbc : strLtR b c) : strLtR a c :=
  pylt_trans a.data b.data c.data hab hbc

theorem strLtR_ne {a b : String} (h : strLtR a b) : a ≠ b := by
  intro he
  subst he
  have h' : pylt a.data a.data = true := h
  rw [pylt_irrefl a.data] at h'
  exact Bool.false_ne_true h'

/-- A strictly ascending chain of labels is pairwise strictly ascending,
hence pairwise distinct. -/
theorem labels_chain_pairwise {l : List String} (h : List.Chain' strLtR l) :
    l.Pairwise strLtR ∧ l.Pairwise (· ≠ ·) := by
  haveI : IsTrans String strLtR := ⟨fun _ _ _ => strLtR_trans⟩
  exact ⟨List.chain'_iff_pairwise.mp h,
    (List.chain'_iff_pairwise.mp h).imp fun hx => strLtR_ne hx⟩

theorem buildInv_initial : BuildInv initial_build_state := by
  refine ⟨rfl, rfl, ?_⟩
  intro g hg
  simp [initial_build_state] at hg

theorem buildInv_close {st : BuildState} (h : BuildInv st)
    (hcur : st.current_chapter_files ≠ []) : BuildInv (close_current st) := by
  obtain ⟨hnums, hidx, hne⟩ := h
  refine ⟨?_, ?_, ?_⟩
  · simp only [close_current, List.map_append, List.length_append, List.map_cons,
      List.map_nil, List.length_cons, List.length_nil]
    rw [hnums, hidx, List.range'_concat]
    simp [Nat.add_comm]
  · simp [close_current, hidx]
  · intro g hg
    simp only [close_current, List.mem_append, List.mem_singleton] at hg
    rcases hg with hg | hg
    · exact hne g hg
    · subst hg; exact hcur

theorem buildInv_step {st : BuildState} (h : BuildInv st) (u : SpineUnit) :
    BuildInv (build_step st u) := by
  obtain ⟨hnums, hidx, hne⟩ := h
  unfold build_step
  repeat' split
  all_goals
    first
    | exact ⟨hnums, hidx, hne⟩
    | · have hcur : st.current_chapter_files ≠ [] := by assumption
        obtain ⟨h1, h2, h3⟩ := buildInv_close ⟨hnums, hidx, hne⟩ hcur
        exact ⟨h1, h2, h3⟩

theorem buildInv_foldl : ∀ (spine : List SpineUnit) (st : BuildState),
    BuildInv st → BuildInv (spine.foldl build_step st)
  | [], _, h => h
  | u :: rest, st, h => buildInv_foldl rest (build_step st u) (buildInv_step h u)

/-- The groups returned by `build_spine_driven_structure` carry the
consecutive indices `1, …, n` and are all nonempty. -/
theorem build_groups_shape (spine : List SpineUnit) :
    (build_spine_driven_structure spine).chapter_groups.map (fun g => g.1) =
      List.range' 1 (build_spine_driven_structure spine).chapter_groups.length ∧
    ∀ g ∈ (build_spine_driven_structure spine).chapter_groups, g.2.2 ≠ [] := by
  have h := buildInv_foldl spine initial_build_state buildInv_initial
  unfold build_spine_driven_structure build_finalize
  split
  · exact ⟨h.1, h.2.2⟩
  · rename_i hcur
    have h' := buildInv_close h hcur
    exact ⟨h'.1, h'.2.2⟩

theorem frontmatter_label_eq : ∀ i, i < 26 → frontmatter_label i = some (fm_label_str i) := by
  decide

theorem frontmatter_label_oob : ∀ i, 26 ≤ i → frontmatter_label i = none := by
  intro i hi
  have hnone : ascii_lowercase.data.get? i = none := by
    apply List.get?_eq_none.mpr
    have h26 : ascii_lowercase.data.length = 26 := by decide
    omega
  unfold frontmatter_label
  rw [hnone]
  rfl

theorem fm_label_ascending : ∀ i, i < 25 → str_lt (fm_label_str i) (fm_label_str (i + 1)) = true := by
  decide

theorem fm_lt_first_chapter : ∀ i, i < 26 → str_lt (fm_label_str i) (chapter_label 1 0) = true := by
  decide

theorem fm_lt_first_back : ∀ i, i < 26 → str_lt (fm_label_str i) (backmatter_label 0) = true := by
  decide

theorem chapter_label_ascending :
    ∀ n, n < 90 → ∀ i, i < 9 → str_lt (chapter_label n i) (chapter_label n (i + 1)) = true := by
  decide

theorem chapter_label_next_group :
    ∀ n, n < 89 → ∀ i, i < 10 → str_lt (chapter_label n i) (chapter_label (n + 1) 0) = true := by
  decide

theorem chapter_lt_back :
    ∀ n, n < 90 → ∀ i, i < 10 → str_lt (chapter_label n i) (backmatter_label 0) = true := by
  decide

theorem back_label_ascending :
    ∀ i, i < 9 → str_lt (backmatter_label i) (backmatter_label (i + 1)) = true := by
  decide

/-! ## Chain helpers -/

theorem chain'_map_range {R : String → String → Prop} {f : Nat → String} {n : Nat}
    (h : ∀ i, i + 1 < n → R (f i) (f (i + 1))) :
    List.Chain' R ((List.range n).map f) := by
  rw [List.chain'_map]
  cases n with
  | zero => simp
  | succ m => exact (List.chain'_range_succ _ m).mpr fun i hi => h i (by omega)

theorem head?_map_range {f : Nat → String} {n : Nat} (h : 0 < n) :
    ((List.range n).map f).head? = some (f 0) := by
  cases n with
  | zero => omega
  | succ m => rw [List.range_succ_eq_map]; simp

theorem getLast?_map_range {f : Nat → String} {n : Nat} (h : 0 < n) :
    ((List.range n).map f).getLast? = some (f (n - 1)) := by
  cases n with
  | zero => omega
  | succ m =>
    rw [List.range_succ, List.map_append]
    simp

/-! ## Characterization of the labeling loops

With every intermediate markdown file present and no unit title hitting
the TOC override, the emitted labels are exactly the three label
families in order. -/

theorem entry_for_no_toc {fname label0 : String} {titleOf : String → String}
    (h : is_toc_special (safe_filename (titleOf fname)) = false) :
    (entry_for fname label0 titleOf).1 = label0 := by
  simp [entry_for, h]

theorem map_range_shift (f : Nat → String) (i n : Nat) :
    (List.range (n + 1)).map (fun k => f (i + k)) =
      f i :: (List.range n).map (fun k => f (i + 1 + k)) := by
  rw [List.range_succ_eq_map, List.map_cons, List.map_map]
  refine congrArg₂ _ (by simp) ?_
  apply List.map_congr_left
  intro a _
  simp only [Function.comp_apply, Nat.succ_eq_add_one]
  congr 1
  omega

theorem assign_front_labels_spec :
    ∀ (fs : List String) (i : Nat) (titleOf : String → String),
      i + fs.length ≤ 26 →
      (∀ f ∈ fs, is_toc_special (safe_filename (titleOf f)) = false) →
      ∃ es, assign_front_labels titleOf (fun _ => true) i fs = some es ∧
        labels_of es = (List.range fs.length).map (fun k => fm_label_str (i + k))
  | [], i, titleOf, _, _ => ⟨[], rfl, rfl⟩
  | f :: rest, i, titleOf, hle, htoc => by
    have hlt : i < 26 := by
      simp only [List.length_cons] at hle
      omega
    obtain ⟨es, hes, hlab⟩ := assign_front_labels_spec rest (i + 1) titleOf
      (by simp only [List.length_cons] at hle; omega)
      (fun g hg => htoc g (List.mem_cons_of_mem f hg))
    have hfst : (entry_for f (fm_label_str i) titleOf).1 = fm_label_str i :=
      entry_for_no_toc (htoc f (List.mem_cons_self f rest))
    unfold assign_front_labels
    rw [frontmatter_label_eq i hlt, hes]
    refine ⟨_, rfl, ?_⟩
    simp only [labels_of, List.length_cons, if_pos, List.map_cons]
    rw [htoc f (List.mem_cons_self f rest), if_neg (by simp), map_range_shift]
    exact congrArg _ hlab

theorem assign_group_labels_spec :
    ∀ (g : List String) (idx : Nat) (num : Nat) (titleOf : String → String),
      (∀ f ∈ g, is_toc_special (safe_filename (titleOf f)) = false) →
      labels_of (assign_group_labels titleOf (fun _ => true) num idx g) =
        (List.range g.length).map (fun k => chapter_label num (idx + k))
  | [], _, _, _, _ => rfl
  | f :: rest, idx, num, titleOf, htoc => by
    have ih := assign_group_labels_spec rest (idx + 1) num titleOf
      (fun g hg => htoc g (List.mem_cons_of_mem f hg))
    have hfst : (entry_for f (chapter_label num idx) titleOf).1 = chapter_label num idx :=
      entry_for_no_toc (htoc f (List.mem_cons_self f rest))
    unfold assign_group_labels
    simp only [labels_of, List.length_cons, if_pos, List.map_cons]
    rw [hfst, map_range_shift _ idx]
    exact congrArg _ ih

theorem assign_chapter_labels_spec :
    ∀ (gs : List (Nat × String × List String)) (titleOf : String → String),
      (∀ g ∈ gs, ∀ f ∈ g.2.2, is_toc_special (safe_filename (titleOf f)) = false) →
      labels_of (assign_chapter_labels titleOf (fun _ => true) gs) =
        (gs.map chapter_block_labels).flatten
  | [], _, _ => rfl
  | (num, t, group) :: rest, titleOf, htoc => by
    have ih := assign_chapter_labels_spec rest titleOf
      (fun g hg => htoc g (List.mem_cons_of_mem _ hg))
    have hgrp := assign_group_labels_spec group 0 num titleOf
      (htoc (num, t, group) (List.mem_cons_self _ rest))
    unfold assign_chapter_labels
    simp only [labels_of, List.map_append, List.map_cons, List.flatten_cons]
    rw [show (List.map (·.label) (assign_group_labels titleOf (fun _ => true) num 0 group)) =
        labels_of (assign_group_labels titleOf (fun _ => true) num 0 group) from rfl, hgrp]
    rw [show (List.map (·.label) (assign_chapter_labels titleOf (fun _ => true) rest)) =
        labels_of (assign_chapter_labels titleOf (fun _ => true) rest) from rfl, ih]
    refine congrArg₂ _ ?_ rfl
    simp [chapter_block_labels]

theorem assign_back_labels_spec :
    ∀ (bs : List String) (i : Nat) (titleOf : String → String),
      (∀ f ∈ bs, is_toc_special (safe_filename (titleOf f)) = false) →
      labels_of (assign_back_labels titleOf (fun _ => true) i bs) =
        (List.range bs.length).map (fun k => backmatter_label (i + k))
  | [], _, _, _ => rfl
  | f :: rest, i, titleOf, htoc => by
    have ih := assign_back_labels_spec rest (i + 1) titleOf
      (fun g hg => htoc g (List.mem_cons_of_mem f hg))
    have hfst : (entry_for f (backmatter_label i) titleOf).1 = backmatter_label i :=
      entry_for_no_toc (htoc f (List.mem_cons_self f rest))
    unfold assign_back_labels
    simp only [labels_of, List.length_cons, if_pos, List.map_cons]
    rw [hfst, map_range_shift _ i]
    exact congrArg _ ih

/-! ## Arbitrary `md_ok`: the emitted entries form a sublist of the
all-files-present run -/

theorem assign_front_labels_sublist :
    ∀ (fs : List String) (i : Nat) (titleOf : String → String) (md_ok : String → Bool)
      (es : List LogEntry),
      assign_front_labels titleOf (fun _ => true) i fs = some es →
      ∃ es', assign_front_labels titleOf md_ok i fs = some es' ∧ es'.Sublist es
  | [], _, _, _, es, h => ⟨[], rfl, by cases h; exact List.Sublist.refl []⟩
  | f :: rest, i, titleOf, md_ok, es, h => by
    unfold assign_front_labels at h ⊢
    cases hl : frontmatter_label i with
    | none => rw [hl] at h; exact absurd h (by simp)
    | some label0 =>
      rw [hl] at h
      cases hr : assign_front_labels titleOf (fun _ => true) (i + 1) rest with
      | none => rw [hr] at h; exact absurd h (by simp)
      | some es0 =>
        rw [hr] at h
        simp only [if_pos rfl, Option.some.injEq] at h
        obtain ⟨es', hes', hsub⟩ := assign_front_labels_sublist rest (i + 1) titleOf md_ok es0 hr
        rw [hes']
        subst h
        by_cases hmd : md_ok f = true
        · exact ⟨_, rfl, by rw [if_pos hmd]; exact hsub.cons₂ _⟩
        · refine ⟨_, rfl, ?_⟩
          rw [if_neg hmd]
          exact hsub.cons _

theorem assign_group_labels_sublist :
    ∀ (g : List String) (idx num : Nat) (titleOf : String → String) (md_ok : String → Bool),
      (assign_group_labels titleOf md_ok num idx g).Sublist
        (assign_group_labels titleOf (fun _ => true) num idx g)
  | [], _, _, _, _ => List.Sublist.refl []
  | f :: rest, idx, num, titleOf, md_ok => by
    have ih := assign_group_labels_sublist rest (idx + 1) num titleOf md_ok
    unfold assign_group_labels
    simp only [if_pos rfl]
    by_cases hmd : md_ok f = true
    · rw [if_pos hmd]; exact ih.cons₂ _
    · rw [if_neg hmd]; exact ih.cons _

theorem assign_chapter_labels_sublist :
    ∀ (gs : List (Nat × String × List String)) (titleOf : String → String)
      (md_ok : String → Bool),
      (assign_chapter_labels titleOf md_ok gs).Sublist
        (assign_chapter_labels titleOf (fun _ => true) gs)
  | [], _, _ => List.Sublist.refl []
  | (num, t, group) :: rest, titleOf, md_ok => by
    have ih := assign_chapter_labels_sublist rest titleOf md_ok
    unfold assign_chapter_labels
    exact (assign_group_labels_sublist group 0 num titleOf md_ok).append ih

theorem assign_back_labels_sublist :
    ∀ (bs : List String) (i : Nat) (titleOf : String → String) (md_ok : String → Bool),
      (assign_back_labels titleOf md_ok i bs).Sublist
        (assign_back_labels titleOf (fun _ => true) i bs)
  | [], _, _, _ => List.Sublist.refl []
  | f :: rest, i, titleOf, md_ok => by
    have ih := assign_back_labels_sublist rest (i + 1) titleOf md_ok
    unfold assign_back_labels
    simp only [if_pos rfl]
    by_cases hmd : md_ok f = true
    · rw [if_pos hmd]; exact ih.cons₂ _
    · rw [if_neg hmd]; exact ih.cons _

theorem assign_labels_sublist (st : SpineStructure) (titleOf : String → String)
    (md_ok : String → Bool) (es : List LogEntry)
    (h : assign_labels st titleOf (fun _ => true) = some es) :
    ∃ es', assign_labels st titleOf md_ok = some es' ∧ es'.Sublist es := by
  unfold assign_labels at h ⊢
  cases hf : assign_front_labels titleOf (fun _ => true) 0 st.frontmatter_files with
  | none => rw [hf] at h; exact absurd h (by simp)
  | some fm =>
    rw [hf] at h
    simp only [Option.some.injEq] at h
    obtain ⟨fm', hfm', hsubf⟩ :=
      assign_front_labels_sublist st.frontmatter_files 0 titleOf md_ok fm hf
    rw [hfm']
    refine ⟨_, rfl, ?_⟩
    subst h
    exact (hsubf.append (assign_chapter_labels_sublist st.chapter_groups titleOf md_ok)).append
      (assign_back_labels_sublist st.backmatter_files 0 titleOf md_ok)

/-! ## The chapter label section is a strictly ascending chain -/

theorem chapter_section_chain :
    ∀ (gs : List (Nat × String × List String)) (start : Nat),
      start + gs.length ≤ 90 →
      gs.map (fun g => g.1) = List.range' start gs.length →
      (∀ g ∈ gs, g.2.2.length ≤ 10 ∧ g.2.2 ≠ []) →
      List.Chain' strLtR (gs.map chapter_block_labels).flatten ∧
      (gs ≠ [] →
        (gs.map chapter_block_labels).flatten.head? = some (chapter_label start 0)) ∧
      (∀ l ∈ (gs.map chapter_block_labels).flatten,
        ∃ num i, num < 90 ∧ i < 10 ∧ l = chapter_label num i)
  | [], start, _, _, _ => by
    refine ⟨by simp, by simp, ?_⟩
    intro l hl
    simp at hl
  | g :: gs', start, hle, hnums, hsz => by
    simp only [List.length_cons, List.map_cons, List.range'_succ] at hnums
    have hg1 : g.1 = start := (List.cons.injEq _ _ _ _ ▸ hnums).1
    have hnums' : gs'.map (fun g => g.1) = List.range' (start + 1) gs'.length :=
      (List.cons.injEq _ _ _ _ ▸ hnums).2
    have hle' : start + 1 + gs'.length ≤ 90 := by
      simp only [List.length_cons] at hle
      omega
    have hstart90 : start < 90 := by
      simp only [List.length_cons] at hle
      omega
    obtain ⟨ihchain, ihhead, ihmem⟩ := chapter_section_chain gs' (start + 1) hle' hnums'
      (fun g hg => hsz g (List.mem_cons_of_mem _ hg))
    obtain ⟨hlen10, hne⟩ := hsz g (List.mem_cons_self g gs')
    have hpos : 0 < g.2.2.length := List.length_pos.mpr hne
    have hblock : chapter_block_labels g =
        (List.range g.2.2.length).map (chapter_label start) := by
      rw [chapter_block_labels, hg1]
    have hchainblock : List.Chain' strLtR (chapter_block_labels g) := by
      rw [hblock]
      exact chain'_map_range fun i hi =>
        chapter_label_ascending start hstart90 i (by omega)
    refine ⟨?_, ?_, ?_⟩
    · simp only [List.map_cons, List.flatten_cons]
      refine List.chain'_append.mpr ⟨hchainblock, ihchain, ?_⟩
      intro x hx y hy
      rw [hblock, getLast?_map_range hpos] at hx
      simp only [Option.mem_def, Option.some.injEq] at hx
      subst hx
      rcases List.eq_nil_or_concat gs' with hnil | ⟨_, _, hcons⟩
      · subst hnil
        simp at hy
      · have hne' : gs' ≠ [] := by
          rw [hcons]
          simp
        rw [ihhead hne'] at hy
        simp only [Option.mem_def, Option.some.injEq] at hy
        subst hy
        have hs89 : start < 89 := by
          have : gs'.length ≠ 0 := fun h0 => hne' (List.length_eq_zero.mp h0)
          omega
        exact chapter_label_next_group start hs89 (g.2.2.length - 1) (by omega)
    · intro _
      simp only [List.map_cons, List.flatten_cons]
      rw [List.head?_append, hblock, head?_map_range hpos]
      rfl
    · intro l hl
      simp only [List.map_cons, List.flatten_cons, List.mem_append] at hl
      rcases hl with hl | hl
      · rw [hblock] at hl
        obtain ⟨k, hk, hlk⟩ := List.mem_map.mp hl
        exact ⟨start, k, hstart90, by
          have := List.mem_range.mp hk
          omega, hlk.symm⟩
      · exact ihmem l hl

/-! ## The full emitted label list is a strictly ascending chain -/

theorem full_labels_chain (nf nb : Nat) (gs : List (Nat × String × List String))
    (hnf : nf ≤ 26) (hnb : nb ≤ 10) (hglen : gs.length ≤ 89)
    (hnums : gs.map (fun g => g.1) = List.range' 1 gs.length)
    (hsz : ∀ g ∈ gs, g.2.2.length ≤ 10 ∧ g.2.2 ≠ []) :
    List.Chain' strLtR
      ((List.range nf).map (fun k => fm_label_str (0 + k)) ++
        ((gs.map chapter_block_labels).flatten ++
          (List.range nb).map (fun k => backmatter_label (0 + k)))) := by
  obtain ⟨hchainB, hheadB, hmemB⟩ :=
    chapter_section_chain gs 1 (by omega) hnums hsz
  have hchainA : List.Chain' strLtR ((List.range nf).map (fun k => fm_label_str (0 + k))) :=
    chain'_map_range fun i hi => by
      have h := fm_label_ascending i (by omega)
      simpa [Nat.zero_add] using h
  have hchainC : List.Chain' strLtR ((List.range nb).map (fun k => backmatter_label (0 + k))) :=
    chain'_map_range fun i hi => by
      have h := back_label_ascending i (by omega)
      simpa [Nat.zero_add] using h
  refine List.chain'_append.mpr ⟨hchainA, List.chain'_append.mpr ⟨hchainB, hchainC, ?_⟩, ?_⟩
  · -- glue: last chapter label < first back-matter label
    intro x hx y hy
    have hxmem : x ∈ (gs.map chapter_block_labels).flatten := List.mem_of_mem_getLast? hx
    obtain ⟨num, i, hnum, hi, hxeq⟩ := hmemB x hxmem
    cases nb with
    | zero => simp at hy
    | succ m =>
      rw [head?_map_range (Nat.succ_pos m)] at hy
      simp only [Option.mem_def, Option.some.injEq] at hy
      subst hy hxeq
      simpa [Nat.zero_add] using chapter_lt_back num hnum i hi
  · -- glue: last front-matter label < head of the rest
    intro x hx y hy
    have hxmem : x ∈ (List.range nf).map (fun k => fm_label_str (0 + k)) :=
      List.mem_of_mem_getLast? hx
    obtain ⟨k, hk, hxk⟩ := List.mem_map.mp hxmem
    have hk26 : k < 26 := by
      have := List.mem_range.mp hk
      omega
    subst hxk
    rw [List.head?_append] at hy
    rcases hgs : gs with _ | ⟨g, gs'⟩
    · -- no chapter groups: the head is the first back-matter label
      simp only [hgs, List.map_nil, List.flatten_nil, List.head?_nil, Option.none_or] at hy
      cases nb with
      | zero => simp at hy
      | succ m =>
        rw [head?_map_range (Nat.succ_pos m)] at hy
        simp only [Option.mem_def, Option.some.injEq] at hy
        subst hy
        simpa [Nat.zero_add] using fm_lt_first_back k hk26
    · -- at least one chapter group: the head is the first chapter label
      have hne : (g :: gs') ≠ [] := by simp
      rw [hgs] at hheadB hy
      rw [hheadB hne] at hy
      have hyeq : y = chapter_label 1 0 := by
        have := hy
        simp only [Option.or, Option.mem_def, Option.some.injEq] at this
        exact this.symm
      subst hyeq
      simpa [Nat.zero_add] using fm_lt_first_chapter k hk26

/-! ## Claim C1: label uniqueness and lexicographic order -/

/-- **C1** (amended theorem).  For every successful run whose structure has at
most 26 front-matter units, at most 89 chapter groups, at most 10 units per
chapter group and at most 10 back-matter units, and in which no unit's
sanitized title triggers the TOC-file label override, the emitted structural
labels are strictly ascending in code-point lexicographic order along the
final reading order (front matter, then chapters, then back matter), hence
pairwise distinct, and sorting them lexicographically reproduces exactly the
reading order.  The bounds are forced by the counterexample
`C1_label_order_counterexample`: an 11th back-matter label is `"100"`, which
sorts lexicographically before `"90"`; similarly an 11th unit in a chapter
group would be labelled `"NN.10"`, which sorts before `"NN.2"`, and a
TOC-like title is relabelled `"100"`. -/
theorem C1_label_order (spine : List SpineUnit) (titleOf : String → String)
    (md_ok : String → Bool)
    (hnf : (build_spine_driven_structure spine).frontmatter_files.length ≤ 26)
    (hg : (build_spine_driven_structure spine).chapter_groups.length ≤ 89)
    (hsz : ∀ g ∈ (build_spine_driven_structure spine).chapter_groups, g.2.2.length ≤ 10)
    (hnb : (build_spine_driven_structure spine).backmatter_files.length ≤ 10)
    (htocf : ∀ f ∈ (build_spine_driven_structure spine).frontmatter_files,
      is_toc_special (safe_filename (titleOf f)) = false)
    (htocc : ∀ g ∈ (build_spine_driven_structure spine).chapter_groups, ∀ f ∈ g.2.2,
      is_toc_special (safe_filename (titleOf f)) = false)
    (htocb : ∀ f ∈ (build_spine_driven_structure spine).backmatter_files,
      is_toc_special (safe_filename (titleOf f)) = false) :
    ∃ entries,
      assign_labels (build_spine_driven_structure spine) titleOf md_ok = some entries ∧
      (labels_of entries).Pairwise strLtR ∧ (labels_of entries).Pairwise (· ≠ ·) := by
  obtain ⟨hnums, hnegrp⟩ := build_groups_shape spine
  obtain ⟨fmes, hfm, hfmlab⟩ :=
    assign_front_labels_spec (build_spine_driven_structure spine).frontmatter_files 0 titleOf
      (by omega) htocf
  have hch := assign_chapter_labels_spec (build_spine_driven_structure spine).chapter_groups
    titleOf htocc
  have hbk := assign_back_labels_spec (build_spine_driven_structure spine).backmatter_files 0
    titleOf htocb
  have hall : assign_labels (build_spine_driven_structure spine) titleOf (fun _ => true) =
      some (fmes ++
        assign_chapter_labels titleOf (fun _ => true)
          (build_spine_driven_structure spine).chapter_groups ++
        assign_back_labels titleOf (fun _ => true) 0
          (build_spine_driven_structure spine).backmatter_files) := by
    unfold assign_labels
    rw [hfm]
  have hfulllab : labels_of (fmes ++
      assign_chapter_labels titleOf (fun _ => true)
        (build_spine_driven_structure spine).chapter_groups ++
      assign_back_labels titleOf (fun _ => true) 0
        (build_spine_driven_structure spine).backmatter_files) =
      (List.range (build_spine_driven_structure spine).frontmatter_files.length).map
          (fun k => fm_label_str (0 + k)) ++
        (((build_spine_driven_structure spine).chapter_groups.map chapter_block_labels).flatten ++
          (List.range (build_spine_driven_structure spine).backmatter_files.length).map
            (fun k => backmatter_label (0 + k))) := by
    simp only [labels_of, List.map_append]
    rw [show List.map (·.label) fmes = labels_of fmes from rfl, hfmlab]
    rw [show List.map (·.label) (assign_chapter_labels titleOf (fun _ => true)
        (build_spine_driven_structure spine).chapter_groups) =
      labels_of (assign_chapter_labels titleOf (fun _ => true)
        (build_spine_driven_structure spine).chapter_groups) from rfl, hch]
    rw [show List.map (·.label) (assign_back_labels titleOf (fun _ => true) 0
        (build_spine_driven_structure spine).backmatter_files) =
      labels_of (assign_back_labels titleOf (fun _ => true) 0
        (build_spine_driven_structure spine).backmatter_files) from rfl, hbk]
    rw [List.append_assoc]
  have hchain := full_labels_chain
    (build_spine_driven_structure spine).frontmatter_files.length
    (build_spine_driven_structure spine).backmatter_files.length
    (build_spine_driven_structure spine).chapter_groups
    hnf hnb hg hnums (fun g hg' => ⟨hsz g hg', hnegrp g hg'⟩)
  obtain ⟨hpair, hneq⟩ := labels_chain_pairwise (hfulllab ▸ hchain)
  obtain ⟨es', hes', hsub⟩ :=
    assign_labels_sublist (build_spine_driven_structure spine) titleOf md_ok _ hall
  have hsublab : (labels_of es').Sublist (labels_of (fmes ++
      assign_chapter_labels titleOf (fun _ => true)
        (build_spine_driven_structure spine).chapter_groups ++
      assign_back_labels titleOf (fun _ => true) 0
        (build_spine_driven_structure spine).backmatter_files)) := by
    simp only [labels_of]
    exact List.Sublist.map _ hsub
  exact ⟨es', hes', List.Pairwise.sublist hsublab hpair, List.Pairwise.sublist hsublab hneq⟩

/-- **C1** (counterexample).  The claim as stated — in every successful run
the emitted labels sort lexicographically into the final reading order — is
false: a run with eleven back-matter units succeeds and emits the labels
`90, …, 99, 100` in reading order, but `"100"` sorts lexicographically
before `"90"`, so the label sequence is not lexicographically ascending and
lexicographic sorting does not reproduce the reading order. -/
theorem C1_label_order_counterexample :
    ∃ entries,
      assign_labels (build_spine_driven_structure c1_cx_spine) (fun f => f) (fun _ => true) =
        some entries ∧
      labels_of entries =
        ["90", "91", "92", "93", "94", "95", "96", "97", "98", "99", "100"] ∧
      ¬ (labels_of entries).Pairwise strLtR ∧
      strLtR "100" "99" := by
  refine ⟨_, rfl, ?_, ?_, ?_⟩
  · decide
  · decide
  · decide

/-- **C1** (witness).  `C1_label_order` applied to a concrete five-unit run,
with every hypothesis discharged by evaluation. -/
theorem C1_label_order_witness :
    ∃ entries,
      assign_labels (build_spine_driven_structure c1_wit_spine) (fun f => f) (fun _ => true) =
        some entries ∧
      (labels_of entries).Pairwise strLtR ∧ (labels_of entries).Pairwise (· ≠ ·) :=
  C1_label_order c1_wit_spine (fun f => f) (fun _ => true)
    (by decide) (by decide) (by decide) (by decide) (by decide) (by decide) (by decide)

/-- **C2** (confirmed).  On the specification's six-unit example the structure
builder returns front matter `[front1]`, exactly the two chapter groups
`(1, title1, [chap1, sub1a, sub1b])` and `(2, title2, [chap2])`, and back
matter `[ref1]`; label assignment then emits `00a, 01.0, 01.1, 01.2, 02.0,
90` for the six units in order. -/
theorem C2_grouping_example :
    build_spine_driven_structure c2_spine =
      ⟨[(1, "Title1", ["chap1.xhtml", "sub1a.xhtml", "sub1b.xhtml"]),
        (2, "Title2", ["chap2.xhtml"])],
       ["front1.xhtml"], ["ref1.xhtml"]⟩ ∧
    (assign_labels (build_spine_driven_structure c2_spine) c2_titleOf (fun _ => true)).map
        (fun es => es.map (fun e => (e.file, e.label))) =
      some [("front1.xhtml", "00a"), ("chap1.xhtml", "01.0"), ("sub1a.xhtml", "01.1"),
            ("sub1b.xhtml", "01.2"), ("chap2.xhtml", "02.0"), ("ref1.xhtml", "90")] := by
  constructor
  · decide
  · decide

/-- **C3** (counterexample).  The walk opens a new chapter group on *every*
chapter-classified unit: two consecutive chapter units both carrying
extracted chapter number 1 produce two groups, although the claim says a
chapter unit whose number equals the open group's number joins it.
Moreover the group key is the sequential running index, not the extracted
chapter number: a single chapter unit with extracted number 5 yields the
group key 1. -/
theorem C3_chapter_boundary_counterexample :
    ¬ C3_claim_same_number_joins ∧
    (build_spine_driven_structure
        [⟨"a.xhtml", true, ⟨"A", false, true, false, some 5⟩⟩]).chapter_groups =
      [(1, "A", ["a.xhtml"])] := by
  constructor
  · intro h
    have h2 := h ⟨"a.xhtml", true, ⟨"A", false, true, false, some 1⟩⟩
      ⟨"b.xhtml", true, ⟨"B", false, true, false, some 1⟩⟩
      rfl rfl rfl rfl rfl rfl rfl rfl rfl
    exact absurd h2 (by decide)
  · decide

theorem heads_group_close (u : SpineUnit) (hu : unit_title u ≠ "") (st : BuildState)
    (h : heads_group u st) : heads_group u (close_current st) ∧
      (∃ g ∈ (close_current st).chapter_groups,
        g.2.2.head? = some u.file ∧ g.2.1 = unit_title u) := by
  rcases h with ⟨g, hg, hgh, hgt⟩ | ⟨hh, ht⟩
  · have : ∃ g ∈ (close_current st).chapter_groups,
        g.2.2.head? = some u.file ∧ g.2.1 = unit_title u :=
      ⟨g, by simp only [close_current, List.mem_append]; exact Or.inl hg, hgh, hgt⟩
    exact ⟨Or.inl this, this⟩
  · have hmem : (st.chapter_index, close_title st.current_chapter_title,
        st.current_chapter_files) ∈ (close_current st).chapter_groups := by
      simp [close_current]
    have hcl : close_title st.current_chapter_title = unit_title u := by
      rw [ht]
      simp [close_title, hu]
    have : ∃ g ∈ (close_current st).chapter_groups,
        g.2.2.head? = some u.file ∧ g.2.1 = unit_title u := ⟨_, hmem, hh, hcl⟩
    exact ⟨Or.inl this, this⟩

theorem heads_group_step (u : SpineUnit) (hu : unit_title u ≠ "") (st : BuildState)
    (h : heads_group u st) (v : SpineUnit) : heads_group u (build_step st v) := by
  unfold build_step
  split
  · exact h
  · split
    · -- frontmatter: chapter state untouched
      rcases h with ⟨g, hg, hp⟩ | ho
      · exact Or.inl ⟨g, hg, hp⟩
      · exact Or.inr ho
    · split
      · -- backmatter: close if open
        split
        · rename_i hcur
          rcases h with ⟨g, hg, hp⟩ | ⟨hh, _⟩
          · exact Or.inl ⟨g, hg, hp⟩
          · rw [hcur] at hh
            exact absurd hh (by simp)
        · rename_i hcur
          obtain ⟨_, hgrp⟩ := heads_group_close u hu st h
          obtain ⟨g, hg, hp⟩ := hgrp
          exact Or.inl ⟨g, hg, hp⟩
      · split
        · -- a chapter unit: close if open, then reopen
          split
          · rename_i hcur
            rcases h with ⟨g, hg, hp⟩ | ⟨hh, _⟩
            · exact Or.inl ⟨g, hg, hp⟩
            · rw [hcur] at hh
              exact absurd hh (by simp)
          · rename_i hcur
            obtain ⟨_, hgrp⟩ := heads_group_close u hu st h
            obtain ⟨g, hg, hp⟩ := hgrp
            exact Or.inl ⟨g, hg, hp⟩
        · -- any other unit: appended to the open accumulator
          rcases h with ⟨g, hg, hp⟩ | ⟨hh, ht⟩
          · exact Or.inl ⟨g, hg, hp⟩
          · refine Or.inr ⟨?_, ht⟩
            cases hc : st.current_chapter_files with
            | nil => rw [hc] at hh; exact absurd hh (by simp)
            | cons a as =>
              rw [hc] at hh
              simpa using hh

theorem heads_group_foldl (u : SpineUnit) (hu : unit_title u ≠ "") :
    ∀ (post : List SpineUnit) (st : BuildState), heads_group u st →
      heads_group u (post.foldl build_step st)
  | [], _, h => h
  | v :: rest, st, h =>
    heads_group_foldl u hu rest (build_step st v) (heads_group_step u hu st h v)

theorem build_step_chapter_opens (st : BuildState) (u : SpineUnit)
    (hd : u.on_disk = true) (hf : u.meta.is_frontmatter = false)
    (hb : u.meta.is_backmatter = false) (hc : u.meta.is_chapter = true) :
    heads_group u (build_step st u) := by
  unfold build_step
  simp only [hd, hf, hb, hc, Bool.true_eq_false, Bool.false_eq_true, if_false, if_true]
  split <;> exact Or.inr ⟨rfl, rfl⟩

/-- **C3** (amended theorem).  During the walk, a new chapter group is opened
(closing the open one, if any) exactly when the current unit is
chapter-classified — the extracted chapter number is never compared, so even
a chapter unit whose number equals the open group's still opens a new group
(see `C3_chapter_boundary_counterexample`) — and the new group is keyed by
the sequential running chapter index (1, 2, …) together with the unit's
title: every chapter-classified on-disk unit of the spine heads a chapter
group of the result carrying its title, and the group keys are exactly
`1, …, n` in order. -/
theorem C3_chapter_boundary (spine : List SpineUnit) (u : SpineUnit)
    (hmem : u ∈ spine) (hd : u.on_disk = true)
    (hf : u.meta.is_frontmatter = false) (hb : u.meta.is_backmatter = false)
    (hc : u.meta.is_chapter = true) (ht : unit_title u ≠ "") :
    (∃ g ∈ (build_spine_driven_structure spine).chapter_groups,
      g.2.2.head? = some u.file ∧ g.2.1 = unit_title u) ∧
    (build_spine_driven_structure spine).chapter_groups.map (fun g => g.1) =
      List.range' 1 (build_spine_driven_structure spine).chapter_groups.length := by
  refine ⟨?_, (build_groups_shape spine).1⟩
  obtain ⟨pre, post, hsplit⟩ := List.append_of_mem hmem
  subst hsplit
  unfold build_spine_driven_structure
  rw [List.foldl_append, List.foldl_cons]
  have hopen := build_step_chapter_opens (pre.foldl build_step initial_build_state) u hd hf hb hc
  have hfold := heads_group_foldl u ht post _ hopen
  unfold build_finalize
  split
  · rename_i hcur
    rcases hfold with ⟨g, hg, hp⟩ | ⟨hh, _⟩
    · exact ⟨g, hg, hp⟩
    · rw [hcur] at hh
      exact absurd hh (by simp)
  · rename_i hcur
    obtain ⟨_, hgrp⟩ := heads_group_close u ht _ hfold
    exact hgrp

/-- **C3** (witness).  Two chapter units with the same extracted number 1:
the amended theorem applied to the second unit shows it heads its own group
(the second one), keyed sequentially. -/
theorem C3_chapter_boundary_witness :
    (∃ g ∈ (build_spine_driven_structure
        [⟨"a.xhtml", true, ⟨"A", false, true, false, some 1⟩⟩,
         ⟨"b.xhtml", true, ⟨"B", false, true, false, some 1⟩⟩]).chapter_groups,
      g.2.2.head? = some "b.xhtml" ∧ g.2.1 = "B") ∧
    (build_spine_driven_structure
        [⟨"a.xhtml", true, ⟨"A", false, true, false, some 1⟩⟩,
         ⟨"b.xhtml", true, ⟨"B", false, true, false, some 1⟩⟩]).chapter_groups.map
        (fun g => g.1) =
      List.range' 1 (build_spine_driven_structure
        [⟨"a.xhtml", true, ⟨"A", false, true, false, some 1⟩⟩,
         ⟨"b.xhtml", true, ⟨"B", false, true, false, some 1⟩⟩]).chapter_groups.length :=
  C3_chapter_boundary _ ⟨"b.xhtml", true, ⟨"B", false, true, false, some 1⟩⟩
    (by decide) rfl rfl rfl rfl (by decide)

/-- **C4** (counterexample).  A single unclassified unit is not bucketed into
the front-matter list: the walk appends it to the current chapter
accumulator, and it is emitted as a chapter group titled `"Untitled"`; no
warning is recorded by `build_spine_driven_structure` (it only prints). -/
theorem C4_unclassified_counterexample :
    ¬ C4_claim_unclassified_to_front ∧
    build_spine_driven_structure [⟨"x.xhtml", true, ⟨"X", false, false, false, none⟩⟩] =
      ⟨[(1, "Untitled", ["x.xhtml"])], [], []⟩ := by
  constructor
  · intro h
    have h2 := h [⟨"x.xhtml", true, ⟨"X", false, false, false, none⟩⟩]
      ⟨"x.xhtml", true, ⟨"X", false, false, false, none⟩⟩ (by decide) rfl rfl
    exact absurd h2 (by decide)
  · decide

theorem file_tracked_close (f : String) (st : BuildState) (h : file_tracked f st) :
    ∃ g ∈ (close_current st).chapter_groups, f ∈ g.2.2 := by
  rcases h with ⟨g, hg, hf⟩ | hf
  · exact ⟨g, by simp only [close_current, List.mem_append]; exact Or.inl hg, hf⟩
  · refine ⟨(st.chapter_index, close_title st.current_chapter_title,
      st.current_chapter_files), ?_, hf⟩
    simp [close_current]

theorem file_tracked_step (f : String) (st : BuildState) (h : file_tracked f st)
    (v : SpineUnit) : file_tracked f (build_step st v) := by
  unfold build_step
  split
  · exact h
  · split
    · rcases h with ⟨g, hg, hf⟩ | hf
      · exact Or.inl ⟨g, hg, hf⟩
      · exact Or.inr hf
    · split
      · split
        · rename_i hcur
          rcases h with ⟨g, hg, hf⟩ | hf
          · exact Or.inl ⟨g, hg, hf⟩
          · rw [hcur] at hf
            exact absurd hf (by simp)
        · exact Or.inl (file_tracked_close f st h)
      · split
        · split
          · rename_i hcur
            rcases h with ⟨g, hg, hf⟩ | hf
            · exact Or.inl ⟨g, hg, hf⟩
            · rw [hcur] at hf
              exact absurd hf (by simp)
          · exact Or.inl (file_tracked_close f st h)
        · rcases h with ⟨g, hg, hf⟩ | hf
          · exact Or.inl ⟨g, hg, hf⟩
          · exact Or.inr (List.mem_append_left _ hf)

theorem file_tracked_foldl (f : String) :
    ∀ (post : List SpineUnit) (st : BuildState), file_tracked f st →
      file_tracked f (post.foldl build_step st)
  | [], _, h => h
  | v :: rest, st, h =>
    file_tracked_foldl f rest (build_step st v) (file_tracked_step f st h v)

theorem build_step_unclassified_appends (st : BuildState) (u : SpineUnit)
    (hd : u.on_disk = true) (hu : unclassified_meta u.meta = true) :
    file_tracked u.file (build_step st u) := by
  have hf : u.meta.is_frontmatter = false := by
    simp only [unclassified_meta, Bool.and_eq_true, Bool.not_eq_true'] at hu
    exact hu.1.1
  have hc : u.meta.is_chapter = false := by
    simp only [unclassified_meta, Bool.and_eq_true, Bool.not_eq_true'] at hu
    exact hu.1.2
  have hb : u.meta.is_backmatter = false := by
    simp only [unclassified_meta, Bool.and_eq_true, Bool.not_eq_true'] at hu
    exact hu.2
  unfold build_step
  simp only [hd, hf, hb, hc, Bool.true_eq_false, Bool.false_eq_true, if_false]
  exact Or.inr (List.mem_append_right _ (List.mem_singleton.mpr rfl))

/-- **C4** (amended theorem).  An unclassified on-disk unit is appended to
the current chapter accumulator — joining the open chapter group when one is
open, and otherwise accumulating into a group that is emitted with the title
`"Untitled"` (see `C4_unclassified_counterexample`) — rather than being
bucketed into the front-matter list, and no warning is recorded.  The
claim's non-dropping half is real: every unclassified on-disk unit of the
spine ends up in some chapter group of the result. -/
theorem C4_unclassified_buckets (spine : List SpineUnit) (u : SpineUnit)
    (hmem : u ∈ spine) (hd : u.on_disk = true)
    (hu : unclassified_meta u.meta = true) :
    ∃ g ∈ (build_spine_driven_structure spine).chapter_groups, u.file ∈ g.2.2 := by
  obtain ⟨pre, post, hsplit⟩ := List.append_of_mem hmem
  subst hsplit
  unfold build_spine_driven_structure
  rw [List.foldl_append, List.foldl_cons]
  have hstep := build_step_unclassified_appends
    (pre.foldl build_step initial_build_state) u hd hu
  have hfold := file_tracked_foldl u.file post _ hstep
  unfold build_finalize
  split
  · rename_i hcur
    rcases hfold with ⟨g, hg, hf⟩ | hf
    · exact ⟨g, hg, hf⟩
    · rw [hcur] at hf
      exact absurd hf (by simp)
  · exact file_tracked_close u.file _ hfold

/-- **C4** (witness).  The amended theorem applied to an unclassified unit
following an open chapter: it lands inside the chapter group. -/
theorem C4_unclassified_buckets_witness :
    ∃ g ∈ (build_spine_driven_structure
        [⟨"c.xhtml", true, ⟨"C", false, true, false, some 1⟩⟩,
         ⟨"y.xhtml", true, ⟨"Y", false, false, false, none⟩⟩]).chapter_groups,
      "y.xhtml" ∈ g.2.2 :=
  C4_unclassified_buckets _ ⟨"y.xhtml", true, ⟨"Y", false, false, false, none⟩⟩
    (by decide) rfl rfl

/-! ## Claims C7 and C8: cross-reference restoration -/

theorem isPrefixOf_append_substr :
    ∀ (a b l : List Char), (a ++ b).isPrefixOf l = true → substr_in_chars b l = true
  | [], b, [], h => by
    cases b with
    | nil => rfl
    | cons c cs => simp [List.isPrefixOf] at h
  | [], b, x :: xs, h => by
    simp only [List.nil_append] at h
    simp only [substr_in_chars, Bool.or_eq_true]
    exact Or.inl h
  | a0 :: a', b, l, h => by
    cases l with
    | nil => simp [List.isPrefixOf] at h
    | cons x xs =>
      simp only [List.cons_append, List.isPrefixOf, Bool.and_eq_true, beq_iff_eq] at h
      have := isPrefixOf_append_substr a' b xs h.2
      simp only [substr_in_chars, Bool.or_eq_true]
      exact Or.inr this

theorem substr_in_chars_of_append :
    ∀ (hay : List Char) (a b : List Char),
      substr_in_chars (a ++ b) hay = true → substr_in_chars b hay = true
  | [], a, b, h => by
    simp only [substr_in_chars, List.isEmpty_iff, List.append_eq_nil] at h
    simp [substr_in_chars, h.2]
  | x :: xs, a, b, h => by
    simp only [substr_in_chars, Bool.or_eq_true] at h ⊢
    rcases h with h | h
    · have h1 := isPrefixOf_append_substr a b (x :: xs) h
      rw [substr_in_chars] at h1
      rcases Bool.or_eq_true _ _ |>.mp h1 with h' | h'
      · exact Or.inl h'
      · exact Or.inr h'
    · exact Or.inr (substr_in_chars_of_append xs a b h)

/-- A url containing `".xhtml#"` contains `"#"`. -/
theorem hash_of_xhtml_hash {url : String} (h : substr_in ".xhtml#" url = true) :
    substr_in "#" url = true :=
  substr_in_chars_of_append url.data ".xhtml".data "#".data h

theorem split_first_char_none :
    ∀ (l : List Char), substr_in_chars ['#'] l = false → split_first_char '#' l = none
  | [], _ => rfl
  | x :: xs, h => by
    rw [substr_in_chars] at h
    have h1 : ['#'].isPrefixOf (x :: xs) = false := by
      cases hq : ['#'].isPrefixOf (x :: xs) with
      | false => rfl
      | true => rw [hq] at h; simp at h
    have h2 : substr_in_chars ['#'] xs = false := by
      cases hq : substr_in_chars ['#'] xs with
      | false => rfl
      | true => rw [hq] at h; simp at h
    have hx : ¬ x = '#' := by
      intro he
      subst he
      simp [List.isPrefixOf] at h1
    rw [split_first_char, if_neg hx, split_first_char_none xs h2]
    rfl

/-- Python `url.split('#', 1)` returns the whole string when `#` is absent. -/
theorem py_split1_no_hash {s : String} (h : substr_in "#" s = false) :
    py_split1 s '#' = (s, "") := by
  unfold py_split1
  rw [split_first_char_none s.data h]

/-- The file part looked up by `restore_link` is the part of the url before
the first `#`, whether or not a `#` occurs. -/
theorem restore_link_parts (url : String) :
    (if substr_in "#" url then py_split1 url '#' else (url, "")).1 =
      (py_split1 url '#').1 := by
  by_cases h : substr_in "#" url = true
  · rw [if_pos h]
  · rw [if_neg h, py_split1_no_hash (Bool.not_eq_true _ ▸ h)]

/-- `restore_link` returns the link unchanged unless the map is truthy, the
url contains `".xhtml#"` and the file part is a key of the map. -/
theorem restore_link_plain (chapter_map : List (String × String)) (text url : String)
    (h : chapter_map.isEmpty = true ∨ substr_in ".xhtml#" url = false ∨
      chapter_map.lookup (py_split1 url '#').1 = none) :
    restore_link chapter_map text url = "[" ++ text ++ "](" ++ url ++ ")" := by
  unfold restore_link
  rcases h with h | h | h
  · rw [if_neg]
    simp [h]
  · rw [if_neg]
    simp [h]
  · by_cases hc : (!chapter_map.isEmpty && substr_in ".xhtml#" url) = true
    · rw [if_pos hc, restore_link_parts url, h]
    · rw [if_neg hc]

/-- `restore_link` rewrites a mapped `.xhtml#` link into `[[target]]`. -/
theorem restore_link_mapped (chapter_map : List (String × String)) (text url target : String)
    (hne : chapter_map.isEmpty = false) (hs : substr_in ".xhtml#" url = true)
    (hl : chapter_map.lookup (py_split1 url '#').1 = some target) :
    restore_link chapter_map text url = "[[" ++ target ++ "]]" := by
  unfold restore_link
  rw [if_pos (by simp [hne, hs]), restore_link_parts url, hl]

/-- **C7** (counterexample).  On the spec's own example —
`[See Chapter 9](chapter9.xhtml#sec2)` with `chapter9.xhtml` absent from the
map — `restore_link` returns the full markdown link pointing at the
nonexistent document, not the plain text `See Chapter 9`; and a mapped
target without a fragment (`ch1.xhtml`) is restored verbatim instead of
referencing the mapped filename. -/
theorem C7_closure_counterexample :
    ¬ C7_claim_closure ∧
    restore_link [("other.xhtml", "01.0 - Other.md")] "See Chapter 9" "chapter9.xhtml#sec2" =
      "[See Chapter 9](chapter9.xhtml#sec2)" ∧
    restore_link [("ch1.xhtml", "01.0 - Alpha.md")] "see" "ch1.xhtml" = "[see](ch1.xhtml)" ∧
    substr_in "01.0 - Alpha.md"
      (restore_link [("ch1.xhtml", "01.0 - Alpha.md")] "see" "ch1.xhtml") = false := by
  refine ⟨?_, by decide, by decide, by decide⟩
  intro h
  have h2 := (h [("other.xhtml", "01.0 - Other.md")] "See Chapter 9" "chapter9.xhtml#sec2"
    (by decide)).2 (by decide)
  exact absurd h2 (by decide)

/-- **C7** (amended theorem).  `restore_link` rewrites a link into the
mapped document reference `[[target]]` exactly when the map is nonempty,
the url contains `".xhtml#"` and the part before the first `#` is a key of
the map; every other link — including links whose target filename is absent
from the map, and mapped targets without a fragment — is restored verbatim
as `[text](url)`: an unresolvable reference keeps its link markup rather
than degrading to plain text. -/
theorem C7_closure (chapter_map : List (String × String)) (text url : String) :
    ((chapter_map.isEmpty = true ∨ substr_in ".xhtml#" url = false ∨
        chapter_map.lookup (py_split1 url '#').1 = none) →
      restore_link chapter_map text url = "[" ++ text ++ "](" ++ url ++ ")") ∧
    (∀ target, chapter_map.isEmpty = false → substr_in ".xhtml#" url = true →
      chapter_map.lookup (py_split1 url '#').1 = some target →
      restore_link chapter_map text url = "[[" ++ target ++ "]]") :=
  ⟨fun h => restore_link_plain chapter_map text url h,
   fun target hne hs hl => restore_link_mapped chapter_map text url target hne hs hl⟩

/-- **C7** (witness).  The amended theorem evaluated on the two concrete
links of the counterexample's scenario. -/
theorem C7_closure_witness :
    restore_link [("other.xhtml", "01.0 - Other.md")] "See Chapter 9" "chapter9.xhtml#sec2" =
      "[" ++ "See Chapter 9" ++ "](" ++ "chapter9.xhtml#sec2" ++ ")" ∧
    restore_link [("ch1.xhtml", "01.0 - Alpha.md")] "x" "ch1.xhtml#s" =
      "[[" ++ "01.0 - Alpha.md" ++ "]]" :=
  ⟨(C7_closure [("other.xhtml", "01.0 - Other.md")] "See Chapter 9" "chapter9.xhtml#sec2").1
      (Or.inr (Or.inr (by decide))),
   (C7_closure [("ch1.xhtml", "01.0 - Alpha.md")] "x" "ch1.xhtml#s").2
      "01.0 - Alpha.md" (by decide) (by decide) (by decide)⟩

/-- **C8** (counterexample).  For the mapped link `ch1.xhtml#sec2` the
rewritten output is `[[01.0 - Alpha.md]]`: the sub-anchor `sec2` does not
occur in it — the anchor is computed by the split and then discarded. -/
theorem C8_anchor_counterexample :
    ¬ C8_claim_anchor_kept ∧
    restore_link [("ch1.xhtml", "01.0 - Alpha.md")] "x" "ch1.xhtml#sec2" =
      "[[01.0 - Alpha.md]]" := by
  refine ⟨?_, by decide⟩
  intro h
  have h2 := h [("ch1.xhtml", "01.0 - Alpha.md")] "x" "ch1.xhtml" "sec2" "01.0 - Alpha.md"
    (by decide) (by decide) (by decide)
  exact absurd h2 (by decide)

/-- **C8** (amended theorem).  When a protected cross-unit anchor link's
target file is a key of the map, `restore_link` rewrites it into the
link-to-document syntax `[[target]]` for the mapped output filename, and the
sub-anchor is dropped: the output is exactly `[[target]]` with no fragment,
whatever the anchor was. -/
theorem C8_anchor_dropped (chapter_map : List (String × String))
    (text file_part anchor target : String)
    (hne : chapter_map.isEmpty = false)
    (hs : substr_in ".xhtml#" (file_part ++ "#" ++ anchor) = true)
    (hl : chapter_map.lookup (py_split1 (file_part ++ "#" ++ anchor) '#').1 = some target) :
    restore_link chapter_map text (file_part ++ "#" ++ anchor) = "[[" ++ target ++ "]]" :=
  restore_link_mapped chapter_map text (file_part ++ "#" ++ anchor) target hne hs hl

/-- **C8** (witness).  The amended theorem applied to `ch1.xhtml#sec2`. -/
theorem C8_anchor_dropped_witness :
    restore_link [("ch1.xhtml", "01.0 - Alpha.md")] "x" ("ch1.xhtml" ++ "#" ++ "sec2") =
      "[[" ++ "01.0 - Alpha.md" ++ "]]" :=
  C8_anchor_dropped [("ch1.xhtml", "01.0 - Alpha.md")] "x" "ch1.xhtml" "sec2"
    "01.0 - Alpha.md" (by decide) (by decide) (by decide)

/-- **C9** (counterexample).  A run whose container parses fine but whose
content-root candidates contain no content files does *not* abort: the code
prints a warning and falls back to the OPF's directory, returning a usable
root, while the claim requires a fatal abort. -/
theorem C9_fatal_counterexample :
    ¬ C9_claim_fatal ∧
    package_setup "/b" (ContainerLookup.rootfile_path (some "OEBPS/content.opf"))
        (fun _ => false) (fun _ => false) (fun _ => "/b/OEBPS") =
      Except.ok ("/b/OEBPS", true) := by
  refine ⟨?_, rfl⟩
  intro h
  have h2 := h.2 "/b" "OEBPS/content.opf" (fun _ => false) (fun _ => false)
    (fun _ => "/b/OEBPS") (fun _ => rfl)
  exact absurd h2 (by decide)

/-- **C9** (amended theorem).  A missing container descriptor or a missing
rootfile path aborts the run with an uncaught error before any output is
produced; but a content root that resolves to no candidate containing
content files does **not** abort: the run continues with the OPF's parent
directory as fallback root and the warning flag set. -/
theorem C9_fatal (container_path : String) (c : ContainerLookup) (d h : String → Bool)
    (parent : String → String) :
    ((c = ContainerLookup.missing_container ∨ c = ContainerLookup.rootfile_path none) →
      (package_setup container_path c d h parent).isOk = false) ∧
    (∀ full_path, c = ContainerLookup.rootfile_path (some full_path) →
      (∀ r, r ∈ [parent (container_path ++ "/" ++ full_path),
                 parent (container_path ++ "/" ++ full_path) ++ "/html",
                 parent (container_path ++ "/" ++ full_path) ++ "/EPUB"] →
        (d r && h r) = false) →
      package_setup container_path c d h parent =
        Except.ok (parent (container_path ++ "/" ++ full_path), true)) := by
  constructor
  · intro hc
    rcases hc with hc | hc <;> subst hc <;> rfl
  · intro full_path hc hno
    subst hc
    have h1 := hno (parent (container_path ++ "/" ++ full_path)) (by simp)
    have h2 := hno (parent (container_path ++ "/" ++ full_path) ++ "/html") (by simp)
    have h3 := hno (parent (container_path ++ "/" ++ full_path) ++ "/EPUB") (by simp)
    simp [package_setup, find_opf_path, resolve_content_root, h1, h2, h3]

/-- **C9** (witness).  Both halves of the amended theorem at concrete
inputs: a missing container aborts, an unresolvable content root falls back
and continues. -/
theorem C9_fatal_witness :
    (package_setup "/b" ContainerLookup.missing_container (fun _ => false) (fun _ => false)
      (fun _ => "/b/OEBPS")).isOk = false ∧
    package_setup "/b" (ContainerLookup.rootfile_path (some "OEBPS/content.opf"))
        (fun _ => false) (fun _ => false) (fun _ => "/b/OEBPS") =
      Except.ok ("/b/OEBPS", true) :=
  ⟨(C9_fatal "/b" ContainerLookup.missing_container (fun _ => false) (fun _ => false)
      (fun _ => "/b/OEBPS")).1 (Or.inl rfl),
   (C9_fatal "/b" (ContainerLookup.rootfile_path (some "OEBPS/content.opf"))
      (fun _ => false) (fun _ => false) (fun _ => "/b/OEBPS")).2
      "OEBPS/content.opf" rfl (fun _ _ => rfl)⟩

/-- **C10** (counterexample).  The letter rule is not unconditional even
below 27 units: a front-matter unit whose sanitized title is TOC-like
(e.g. `"Contents"`, which the classifier routinely sends to front matter)
is relabelled `"100"` instead of `"00a"`. -/
theorem C10_front_letters_counterexample :
    ¬ C10_claim_front_letters ∧
    (assign_front_labels (fun _ => "Contents") (fun _ => true) 0 ["contents.xhtml"]).map
      labels_of = some ["100"] := by
  refine ⟨?_, by decide⟩
  intro h
  have h2 := h.1 ["contents.xhtml"] (fun _ => "Contents") (by decide)
  exact absurd h2 (by decide)

theorem assign_front_labels_overflow :
    ∀ (fs : List String) (i : Nat) (titleOf : String → String) (md_ok : String → Bool),
      26 < i + fs.length → fs ≠ [] →
      assign_front_labels titleOf md_ok i fs = none
  | [], _, _, _, _, hne => absurd rfl hne
  | f :: rest, i, titleOf, md_ok, hlt, _ => by
    unfold assign_front_labels
    by_cases hi : 26 ≤ i
    · rw [frontmatter_label_oob i hi]
    · have hi26 : i < 26 := by omega
      rw [frontmatter_label_eq i hi26]
      have hrest : rest ≠ [] := by
        intro he
        subst he
        simp only [List.length_cons, List.length_nil] at hlt
        omega
      rw [assign_front_labels_overflow rest (i + 1) titleOf md_ok
        (by simp only [List.length_cons] at hlt; omega) hrest]

/-- **C10** (amended theorem).  Front-matter labeling is only total up to 26
units: with at most 26 units (and no TOC-like sanitized title, which would
be relabelled `"100"` — see `C10_front_letters_counterexample`) unit `i`
receives `"00"` + the `i`-th lowercase letter; with 27 or more units,
indexing `ascii_lowercase` raises `IndexError` and labeling aborts instead
of producing labels. -/
theorem C10_front_labels (front : List String) (titleOf : String → String)
    (md_ok : String → Bool) :
    (front.length ≤ 26 →
      (∀ f ∈ front, is_toc_special (safe_filename (titleOf f)) = false) →
      (assign_front_labels titleOf (fun _ => true) 0 front).map labels_of =
        some ((List.range front.length).map fm_label_str)) ∧
    (27 ≤ front.length → assign_front_labels titleOf md_ok 0 front = none) := by
  constructor
  · intro hle htoc
    obtain ⟨es, hes, hlab⟩ := assign_front_labels_spec front 0 titleOf (by omega) htoc
    rw [hes, Option.map_some', hlab]
    refine congrArg _ (List.map_congr_left ?_)
    intro a _
    rw [Nat.zero_add]
  · intro h27
    apply assign_front_labels_overflow front 0 titleOf md_ok (by omega)
    intro he
    subst he
    simp at h27

/-- **C10** (witness).  The amended theorem applied twice: a two-unit front
matter receives `00a, 00b`; a 27-unit front matter aborts. -/
theorem C10_front_labels_witness :
    (assign_front_labels (fun f => f) (fun _ => true) 0
        ["pref.xhtml", "ack.xhtml"]).map labels_of =
      some ((List.range 2).map fm_label_str) ∧
    assign_front_labels (fun f => f) (fun _ => true) 0
      (List.replicate 27 "f.xhtml") = none :=
  ⟨by
    have h := (C10_front_labels ["pref.xhtml", "ack.xhtml"] (fun f => f) (fun _ => true)).1
      (by decide) (by decide)
    exact h,
   (C10_front_labels (List.replicate 27 "f.xhtml") (fun f => f) (fun _ => true)).2
    (by decide)⟩

theorem notes_pass_cons (b : Bool) (l : String) (rest : List String) :
    notes_section_pass b (l :: rest) =
      (if b = true ∧ py_strip l ≠ "## Notes" ∧ py_startswith "##" (py_strip l) = false ∧
          notes_numbered (py_strip l) = true
        then notes_sub_line l else l) :: notes_section_pass (notes_state_step b l) rest := by
  unfold notes_section_pass notes_state_step
  by_cases h1 : py_strip l = "## Notes"
  · simp [h1]
    all_goals (cases rest <;> rfl)
  · by_cases hb : b = true
    · by_cases h2 : py_startswith "##" (py_strip l) = true
      · simp [h1, hb, h2]
        all_goals (cases rest <;> rfl)
      · by_cases h3 : notes_numbered (py_strip l) = true
        · simp [h1, hb, h2, h3]
          all_goals (cases rest <;> rfl)
        · simp [h1, hb, h2, h3]
          all_goals (cases rest <;> rfl)
    · simp [h1, hb]
      all_goals (cases rest <;> rfl)

/-- The pass rewrites line `i` exactly when the code's flag is set when the
walk reaches it and the line is a numbered line that neither re-opens nor
closes the section. -/
theorem notes_pass_get? :
    ∀ (lines : List String) (b : Bool) (i : Nat) (line : String),
      lines.get? i = some line →
      (notes_section_pass b lines).get? i =
        some (if (lines.take i).foldl notes_state_step b = true ∧
            py_strip line ≠ "## Notes" ∧ py_startswith "##" (py_strip line) = false ∧
            notes_numbered (py_strip line) = true
          then notes_sub_line line else line)
  | [], _, i, line, h => by simp at h
  | l :: rest, b, 0, line, h => by
    rw [List.get?_cons_zero, Option.some.injEq] at h
    subst h
    rw [notes_pass_cons, List.get?_cons_zero, List.take_zero, List.foldl_nil]
  | l :: rest, b, i + 1, line, h => by
    rw [List.get?_cons_succ] at h
    rw [notes_pass_cons, List.get?_cons_succ,
      notes_pass_get? rest (notes_state_step b l) i line h, List.take_succ_cons,
      List.foldl_cons]

/-- The flag is set after a prefix exactly when the prefix contains a
`## Notes` line after whose last occurrence-point no `##`-heading closes the
section — or the flag started set and nothing closed it. -/
theorem notes_state_foldl_iff :
    ∀ (pre : List String) (b : Bool),
      pre.foldl notes_state_step b = true ↔
        ((∃ j, j < pre.length ∧ notes_open (pre.getD j "") = true ∧
            ∀ k, k < pre.length → j < k → notes_keeps (pre.getD k "") = true) ∨
          (b = true ∧ ∀ k, k < pre.length → notes_keeps (pre.getD k "") = true))
  | [], b => by
    simp only [List.foldl_nil, List.length_nil]
    constructor
    · intro hb
      right
      exact ⟨hb, fun k hk => absurd hk (by omega)⟩
    · rintro (⟨j, hj, _⟩ | ⟨hb, _⟩)
      · exact absurd hj (by omega)
      · exact hb
  | l :: rest, b => by
    rw [List.foldl_cons, notes_state_foldl_iff rest (notes_state_step b l)]
    constructor
    · rintro (⟨j, hj, hn, hkeep⟩ | ⟨hstep, hkeep⟩)
      · left
        refine ⟨j + 1, by simp only [List.length_cons]; omega, hn, ?_⟩
        intro k hk hjk
        cases k with
        | zero => omega
        | succ k' =>
          exact hkeep k' (by simp only [List.length_cons] at hk; omega) (by omega)
      · by_cases hno : notes_open l = true
        · left
          refine ⟨0, by simp only [List.length_cons]; omega, hno, ?_⟩
          intro k hk hk0
          cases k with
          | zero => omega
          | succ k' =>
            exact hkeep k' (by simp only [List.length_cons] at hk; omega)
        · have hl1 : py_strip l ≠ "## Notes" := by
            intro he
            exact hno (by simp [notes_open, he])
          have hb : b = true := by
            by_contra hbf
            have hbf' : b = false := by
              cases b with
              | false => rfl
              | true => exact absurd rfl hbf
            rw [notes_state_step, if_neg hl1, hbf'] at hstep
            simp at hstep
          have hsharp : py_startswith "##" (py_strip l) = false := by
            by_contra hsf
            have hsf' : py_startswith "##" (py_strip l) = true := by
              cases hq : py_startswith "##" (py_strip l) with
              | false => exact absurd hq hsf
              | true => rfl
            rw [notes_state_step, if_neg hl1, hb, hsf'] at hstep
            simp at hstep
          right
          refine ⟨hb, ?_⟩
          intro k hk
          cases k with
          | zero =>
            simp [List.getD_cons_zero, notes_keeps, hsharp]
          | succ k' =>
            exact hkeep k' (by simp only [List.length_cons] at hk; omega)
    · rintro (⟨j, hj, hn, hkeep⟩ | ⟨hb, hkeep⟩)
      · cases j with
        | zero =>
          right
          have hstep : notes_state_step b l = true := by
            rw [notes_state_step, if_pos]
            simp only [List.getD_cons_zero, notes_open, beq_iff_eq] at hn
            exact hn
          refine ⟨hstep, ?_⟩
          intro k hk
          exact hkeep (k + 1) (by simp only [List.length_cons]; omega) (by omega)
        | succ j' =>
          left
          refine ⟨j', by simp only [List.length_cons] at hj; omega, hn, ?_⟩
          intro k hk hjk
          exact hkeep (k + 1) (by simp only [List.length_cons]; omega) (by omega)
      · have hkl := hkeep 0 (by simp only [List.length_cons]; omega)
        simp only [List.getD_cons_zero, notes_keeps, Bool.or_eq_true] at hkl
        have hstep : notes_state_step b l = true := by
          rcases hkl with hkl | hkl
          · rw [notes_state_step, if_pos]
            simp only [notes_open, beq_iff_eq] at hkl
            exact hkl
          · rw [notes_state_step]
            split
            · rfl
            · rw [show py_startswith "##" (py_strip l) = false by
                cases hq : py_startswith "##" (py_strip l) with
                | false => rfl
                | true => rw [hq] at hkl; simp at hkl]
              simp [hb]
        right
        refine ⟨hstep, ?_⟩
        intro k hk
        exact hkeep (k + 1) (by simp only [List.length_cons]; omega)

/-- **C6** (counterexample).  In
`["## Notes", "x", "# Other", "3 some note text"]` the numbered line
follows the heading `# Other`, so per the claim the Notes section is closed
and the line must stay body text; but the code only closes the section on
lines whose stripped text starts with `##`, so it still rewrites the line
into `[^3]: some note text`.  (Dually, only a line stripping to exactly
`## Notes` opens the section: a `# Notes` heading does not.) -/
theorem C6_notes_counterexample :
    ¬ C6_claim_notes ∧
    notes_section_pass false ["## Notes", "x", "# Other", "3 some note text"] =
      ["## Notes", "x", "# Other", "[^3]: some note text"] ∧
    notes_section_pass false ["# Notes", "3 some note text"] =
      ["# Notes", "3 some note text"] := by
  refine ⟨?_, by decide, by decide⟩
  intro h
  have h2 := (h ["## Notes", "x", "# Other", "3 some note text"] 3 "3 some note text"
    (by decide) (by decide)).2 (by decide)
  exact absurd h2 (by decide)

/-- **C6** (amended theorem).  The Notes scoping implemented by the pass:
a section is opened exactly by a line whose stripped text is `## Notes` and
closed exactly by a later line whose stripped text starts with `##` (a
level-1 heading does not close it).  Inside such a section, a line whose
stripped text is of the numbered form `<digits><whitespace>…` (and which is
not itself a `##` heading) is rewritten by the anchored substitution into
the footnote-definition form; outside any such section, and for
non-numbered lines, the line is emitted unchanged. -/
theorem C6_notes_scoping (lines : List String) (i : Nat) (line : String)
    (hl : lines.get? i = some line) :
    ((∃ j, j < i ∧ notes_open (lines.getD j "") = true ∧
        ∀ k, k < i → j < k → notes_keeps (lines.getD k "") = true) ∧
        py_strip line ≠ "## Notes" ∧ py_startswith "##" (py_strip line) = false ∧
        notes_numbered (py_strip line) = true →
      (notes_section_pass false lines).get? i = some (notes_sub_line line)) ∧
    ((¬ ∃ j, j < i ∧ notes_open (lines.getD j "") = true ∧
        ∀ k, k < i → j < k → notes_keeps (lines.getD k "") = true) →
      (notes_section_pass false lines).get? i = some line) ∧
    (notes_numbered (py_strip line) = false →
      (notes_section_pass false lines).get? i = some line) := by
  have hpass := notes_pass_get? lines false i line hl
  have hilen : i < lines.length := by
    by_contra hge
    rw [List.get?_eq_none.mpr (by omega)] at hl
    exact absurd hl (by simp)
  have htake_len : (lines.take i).length = i := by
    rw [List.length_take]
    omega
  have hgetD : ∀ j, j < i → (lines.take i).getD j "" = lines.getD j "" := by
    intro j hj
    rw [List.getD_eq_get?, List.getD_eq_get?, List.get?_take hj]
  have hscope : ((lines.take i).foldl notes_state_step false = true) ↔
      (∃ j, j < i ∧ notes_open (lines.getD j "") = true ∧
        ∀ k, k < i → j < k → notes_keeps (lines.getD k "") = true) := by
    rw [notes_state_foldl_iff]
    constructor
    · rintro (⟨j, hj, hn, hk⟩ | ⟨hfalse, _⟩)
      · rw [htake_len] at hj
        rw [hgetD j hj] at hn
        refine ⟨j, hj, hn, ?_⟩
        intro k hk1 hjk
        have := hk k (by rw [htake_len]; exact hk1) hjk
        rwa [hgetD k hk1] at this
      · exact absurd hfalse (by simp)
    · rintro ⟨j, hj, hn, hk⟩
      left
      refine ⟨j, by rw [htake_len]; exact hj, by rw [hgetD j hj]; exact hn, ?_⟩
      intro k hk1 hjk
      rw [htake_len] at hk1
      rw [hgetD k hk1]
      exact hk k hk1 hjk
  refine ⟨?_, ?_, ?_⟩
  · rintro ⟨hsc, hnn, hsh, hnum⟩
    rw [hpass, if_pos ⟨hscope.mpr hsc, hnn, hsh, hnum⟩]
  · intro hnsc
    rw [hpass, if_neg]
    rintro ⟨hc, _⟩
    exact hnsc (hscope.mp hc)
  · intro hnum0
    rw [hpass, if_neg]
    rintro ⟨_, _, _, hnum⟩
    rw [hnum0] at hnum
    exact absurd hnum (by simp)

/-- **C6** (witness).  The amended theorem applied inside and outside a
Notes section: `"7 note body"` after `## Notes` becomes `[^7]: note body`;
the same line with no Notes heading before it stays unchanged. -/
theorem C6_notes_scoping_witness :
    (notes_section_pass false ["## Notes", "7 note body"]).get? 1 =
      some (notes_sub_line "7 note body") ∧
    (notes_section_pass false ["intro", "7 note body"]).get? 1 =
      some "7 note body" :=
  ⟨(C6_notes_scoping ["## Notes", "7 note body"] 1 "7 note body" rfl).1
      ⟨⟨0, by omega, by decide, fun k hk1 hk0 => by omega⟩, by decide, by decide, by decide⟩,
   (C6_notes_scoping ["intro", "7 note body"] 1 "7 note body" rfl).2.1
      (by
        rintro ⟨j, hj, hn, _⟩
        interval_cases j
        exact absurd hn (by decide))⟩

end EpubToMd
